import Mathlib

/-!
Verification of the local entity store (`js/api-local.js`-style module):
a localStorage-backed data layer with a seed step (`seedIfEmpty`), a raw
get/set pair (`LS`), typed fetch operations (`fetchInventorySummary`,
`fetchCategories`, `fetchData`, ...) and a mutation dispatcher (`postData`).

The browser store holds one raw string per key; values cross the boundary
through `JSON.stringify` / `JSON.parse`.  Both are modelled executably below
(`jsonStringify`, `jsonParse`) over `JVal`, a JSON value type whose numbers
are integers (the store only ever holds integral quantities and ids; float
syntax is outside the model).  JavaScript `undefined` is modelled as the
`none` of `Option JVal`.  A JavaScript statement that would throw a
`TypeError` is modelled as `none` in an `Option` result.
-/

set_option maxRecDepth 20000

/-- A JSON value. Numbers are modelled as integers (see the module comment). -/
inductive JVal where
  | null : JVal
  | bool (b : Bool) : JVal
  | num (n : Int) : JVal
  | str (s : String) : JVal
  | arr (l : List JVal) : JVal
  | obj (fields : List (String × JVal)) : JVal
  deriving Repr

mutual

/-- Structural equality on JSON values (used for `DecidableEq JVal`). -/
def jeq : JVal → JVal → Bool
  | .null, .null => true
  | .bool a, .bool b => a == b
  | .num a, .num b => a == b
  | .str a, .str b => a == b
  | .arr a, .arr b => jeqItems a b
  | .obj a, .obj b => jeqFields a b
  | _, _ => false

def jeqItems : List JVal → List JVal → Bool
  | [], [] => true
  | a :: as, b :: bs => jeq a b && jeqItems as bs
  | _, _ => false

def jeqFields : List (String × JVal) → List (String × JVal) → Bool
  | [], [] => true
  | (k1, v1) :: as, (k2, v2) :: bs => k1 == k2 && jeq v1 v2 && jeqFields as bs
  | _, _ => false

end

mutual

theorem jeq_rfl : ∀ a : JVal, jeq a a = true
  | .null => rfl
  | .bool b => by simp [jeq]
  | .num n => by simp [jeq]
  | .str s => by simp [jeq]
  | .arr l => by simp [jeq, jeqItems_rfl l]
  | .obj fs => by simp [jeq, jeqFields_rfl fs]

theorem jeqItems_rfl : ∀ l : List JVal, jeqItems l l = true
  | [] => rfl
  | a :: as => by simp [jeqItems, jeq_rfl a, jeqItems_rfl as]

theorem jeqFields_rfl : ∀ fs : List (String × JVal), jeqFields fs fs = true
  | [] => rfl
  | (k, v) :: rest => by simp [jeqFields, jeq_rfl v, jeqFields_rfl rest]

end

mutual

theorem jeq_sound : ∀ a b : JVal, jeq a b = true → a = b
  | .null, .null, _ => rfl
  | .bool a, .bool b, h => by simpa [jeq] using h
  | .num a, .num b, h => by simpa [jeq] using h
  | .str a, .str b, h => by simpa [jeq] using h
  | .arr a, .arr b, h => by
      rw [jeqItems_sound a b (by simpa [jeq] using h)]
  | .obj a, .obj b, h => by
      rw [jeqFields_sound a b (by simpa [jeq] using h)]
  | .null, .bool _, h | .null, .num _, h | .null, .str _, h
  | .null, .arr _, h | .null, .obj _, h
  | .bool _, .null, h | .bool _, .num _, h | .bool _, .str _, h
  | .bool _, .arr _, h | .bool _, .obj _, h
  | .num _, .null, h | .num _, .bool _, h | .num _, .str _, h
  | .num _, .arr _, h | .num _, .obj _, h
  | .str _, .null, h | .str _, .bool _, h | .str _, .num _, h
  | .str _, .arr _, h | .str _, .obj _, h
  | .arr _, .null, h | .arr _, .bool _, h | .arr _, .num _, h
  | .arr _, .str _, h | .arr _, .obj _, h
  | .obj _, .null, h | .obj _, .bool _, h | .obj _, .num _, h
  | .obj _, .str _, h | .obj _, .arr _, h => by simp [jeq] at h

theorem jeqItems_sound : ∀ a b : List JVal, jeqItems a b = true → a = b
  | [], [], _ => rfl
  | x :: xs, y :: ys, h => by
      have h1 : jeq x y = true := by
        have := h; simp [jeqItems, Bool.and_eq_true] at this; exact this.1
      have h2 : jeqItems xs ys = true := by
        have := h; simp [jeqItems, Bool.and_eq_true] at this; exact this.2
      rw [jeq_sound x y h1, jeqItems_sound xs ys h2]
  | [], _ :: _, h => by simp [jeqItems] at h
  | _ :: _, [], h => by simp [jeqItems] at h

theorem jeqFields_sound :
    ∀ a b : List (String × JVal), jeqFields a b = true → a = b
  | [], [], _ => rfl
  | (k1, v1) :: xs, (k2, v2) :: ys, h => by
      have hs : k1 = k2 ∧ jeq v1 v2 = true ∧ jeqFields xs ys = true := by
        have := h; simp [jeqFields, Bool.and_eq_true] at this; tauto
      rw [hs.1, jeq_sound v1 v2 hs.2.1, jeqFields_sound xs ys hs.2.2]
  | [], _ :: _, h => by simp [jeqFields] at h
  | _ :: _, [], h => by simp [jeqFields] at h

end

instance : DecidableEq JVal := fun a b =>
  if h : jeq a b = true then .isTrue (jeq_sound a b h)
  else .isFalse (fun e => h (e ▸ jeq_rfl a))

example : decide (JVal.null ≠ JVal.arr []) = true := by decide
example : (JVal.arr [.num 3, .str "x"]) = (JVal.arr [.num 3, .str "x"]) := by decide

/-- JavaScript truthiness of a JSON value (`NaN` cannot occur in `JVal`). -/
def truthy : JVal → Bool
  | .null => false
  | .bool b => b
  | .num n => n != 0
  | .str s => !(s.data.isEmpty)
  | .arr _ => true
  | .obj _ => true

/-- Truthiness of a possibly-`undefined` JavaScript value. -/
def truthyU : Option JVal → Bool
  | none => false
  | some v => truthy v

/-- The character for the decimal digit `d < 10`. -/
def digCh (d : Nat) : Char := Char.ofNat (48 + d)

/-- Decimal digits of `n`, most significant first (`fuel`-structural so that
the kernel can evaluate it; any `fuel > n` is enough). -/
def decDigits : Nat → Nat → List Char
  | 0, _ => []
  | fuel + 1, n => if n < 10 then [digCh n] else decDigits fuel (n / 10) ++ [digCh (n % 10)]

/-- Decimal notation of a natural number. -/
def natChars (n : Nat) : List Char := decDigits (n + 1) n

/-- Decimal notation of an integer, with a leading minus sign when negative
(the number output of `JSON.stringify` for integral values). -/
def intChars (i : Int) : List Char :=
  if i < 0 then '-' :: natChars i.natAbs else natChars i.toNat

/-- Lower-case hexadecimal digit character for `d < 16`. -/
def hexDigit (d : Nat) : Char := if d < 10 then Char.ofNat (48 + d) else Char.ofNat (87 + d)

/-- One character of string content, escaped exactly as `JSON.stringify`
escapes it: quote, backslash, the five short control escapes, `\u00XX`
for the remaining control characters, anything else verbatim. -/
def escapeOne (c : Char) : List Char :=
  if c = '"' then ['\\', '"']
  else if c = '\\' then ['\\', '\\']
  else if c = Char.ofNat 8 then ['\\', 'b']
  else if c = '\t' then ['\\', 't']
  else if c = '\n' then ['\\', 'n']
  else if c = Char.ofNat 12 then ['\\', 'f']
  else if c = '\r' then ['\\', 'r']
  else if c.toNat < 32 then ['\\', 'u', '0', '0', hexDigit (c.toNat / 16), hexDigit (c.toNat % 16)]
  else [c]

/-- JSON-escape a whole character list. -/
def escapeAll : List Char → List Char
  | [] => []
  | c :: rest => escapeOne c ++ escapeAll rest

/-- A JSON string literal (quotes included) for the text `s`. -/
def strChars (s : String) : List Char := '"' :: (escapeAll s.data ++ ['"'])

mutual

/-- The characters `JSON.stringify` produces for a value (no whitespace). -/
def jchars : JVal → List Char
  | .null => ['n', 'u', 'l', 'l']
  | .bool false => ['f', 'a', 'l', 's', 'e']
  | .bool true => ['t', 'r', 'u', 'e']
  | .num i => intChars i
  | .str s => strChars s
  | .arr l => '[' :: (jcharsItems l ++ [']'])
  | .obj fs => '{' :: (jcharsFields fs ++ ['}'])

def jcharsItems : List JVal → List Char
  | [] => []
  | [v] => jchars v
  | v :: rest => jchars v ++ ',' :: jcharsItems rest

def jcharsFields : List (String × JVal) → List Char
  | [] => []
  | [(k, v)] => strChars k ++ ':' :: jchars v
  | (k, v) :: rest => strChars k ++ ':' :: jchars v ++ ',' :: jcharsFields rest

end

/-- The model of `JSON.stringify`. -/
def jsonStringify (v : JVal) : String := ⟨jchars v⟩

example : jsonStringify (.arr [.num (-12), .null, .str "a b"]) = "[-12,null,\"a b\"]" := by decide
example : jsonStringify (.obj [("id", .num 1), ("t", .bool true)]) = "\x7b\"id\":1,\"t\":true\x7d" := by decide

/-- Value of a hexadecimal digit character, if it is one. -/
def hexv (c : Char) : Option Nat :=
  if '0' ≤ c ∧ c ≤ '9' then some (c.toNat - 48)
  else if 'a' ≤ c ∧ c ≤ 'f' then some (c.toNat - 87)
  else if 'A' ≤ c ∧ c ≤ 'F' then some (c.toNat - 55)
  else none

/-- The character named by a short JSON escape, if the escape is legal. -/
def unescZ : Char → Option Char
  | '"' => some '"'
  | '\\' => some '\\'
  | '/' => some '/'
  | 'b' => some (Char.ofNat 8)
  | 'f' => some (Char.ofNat 12)
  | 'n' => some '\n'
  | 'r' => some '\r'
  | 't' => some '\t'
  | _ => none

/-- Read a JSON string body (after the opening quote) up to the closing
quote, unescaping as `JSON.parse` does; `acc` holds the characters read so
far, reversed. Unescaped control characters are rejected. A `\uXXXX` escape
is accepted when it names a Unicode scalar value (surrogate pairs are outside
the model; the escapes `jsonStringify` emits are all below `0x20`). -/
def readStrBody : List Char → List Char → Option (List Char × List Char)
  | '"' :: rest, acc => some (acc.reverse, rest)
  | '\\' :: 'u' :: a :: b :: c :: d :: rest, acc =>
      match hexv a, hexv b, hexv c, hexv d with
      | some va, some vb, some vc, some vd =>
          let n := ((va * 16 + vb) * 16 + vc) * 16 + vd
          if n.isValidChar then readStrBody rest (Char.ofNat n :: acc) else none
      | _, _, _, _ => none
  | '\\' :: e :: rest, acc =>
      match unescZ e with
      | some ch => readStrBody rest (ch :: acc)
      | none => none
  | c :: rest, acc => if c.toNat < 32 then none else readStrBody rest (c :: acc)
  | [], _ => none

/-- Read a run of decimal digits, accumulating their value onto `acc`. -/
def readDigits : List Char → Nat → Nat × List Char
  | c :: rest, acc => if c.isDigit then readDigits rest (acc * 10 + (c.toNat - 48)) else (acc, c :: rest)
  | [], acc => (acc, [])

/-- Read a natural number: at least one digit, then the longest digit run. -/
def readNum : List Char → Option (Nat × List Char)
  | c :: rest => if c.isDigit then some (readDigits (c :: rest) 0) else none
  | [] => none

/-- JavaScript object-key assignment `o[k] = v` on an association list: the
value is replaced in place when the key is present, appended when absent. -/
def objSet : List (String × JVal) → String → JVal → List (String × JVal)
  | [], k, v => [(k, v)]
  | (k', v') :: rest, k, v =>
      if k' = k then (k', v) :: rest else (k', v') :: objSet rest k v

/-- Consume an expected literal character sequence from the input. -/
def dropLit : List Char → List Char → Option (List Char)
  | [], rest => some rest
  | e :: es, c :: rest => if c = e then dropLit es rest else none
  | _ :: _, [] => none

mutual

/-- Read one JSON value (structural on `fuel`, which bounds nesting work;
grammar exactly as `jsonStringify` emits it, no interior whitespace). The
first character selects the production, as in a recursive-descent parser. -/
def jread : Nat → List Char → Option (JVal × List Char)
  | 0, _ => none
  | fuel + 1, cs =>
    match cs with
    | [] => none
    | c :: rest =>
      if c = 'n' then
        match dropLit ['u', 'l', 'l'] rest with
        | some r => some (.null, r)
        | none => none
      else if c = 't' then
        match dropLit ['r', 'u', 'e'] rest with
        | some r => some (.bool true, r)
        | none => none
      else if c = 'f' then
        match dropLit ['a', 'l', 's', 'e'] rest with
        | some r => some (.bool false, r)
        | none => none
      else if c = '"' then
        match readStrBody rest [] with
        | some (s, r) => some (.str ⟨s⟩, r)
        | none => none
      else if c = '[' then
        match rest with
        | ']' :: r => some (.arr [], r)
        | _ =>
          match jreadItems fuel rest with
          | some (l, r) => some (.arr l, r)
          | none => none
      else if c = '{' then
        match rest with
        | '}' :: r => some (.obj [], r)
        | _ =>
          match jreadFields fuel rest with
          | some (fs, r) => some (.obj (fs.foldl (fun acc kv => objSet acc kv.1 kv.2) []), r)
          | none => none
      else if c = '-' then
        match readNum rest with
        | some (n, r) => some (.num (-(n : Int)), r)
        | none => none
      else if c.isDigit then
        match readNum (c :: rest) with
        | some (n, r) => some (.num (n : Int), r)
        | none => none
      else none

/-- Read the items of a non-empty array, consuming the closing bracket. -/
def jreadItems : Nat → List Char → Option (List JVal × List Char)
  | 0, _ => none
  | fuel + 1, cs =>
    match jread fuel cs with
    | some (v, rest) =>
        match rest with
        | ',' :: rest2 =>
            match jreadItems fuel rest2 with
            | some (l, rest3) => some (v :: l, rest3)
            | none => none
        | ']' :: rest2 => some ([v], rest2)
        | _ => none
    | none => none

/-- Read the members of a non-empty object, consuming the closing brace.
The raw key/value pairs are returned in reading order; `jread` folds them
with `objSet`, so a repeated key keeps its first position and last value,
as in JavaScript. -/
def jreadFields : Nat → List Char → Option (List (String × JVal) × List Char)
  | 0, _ => none
  | fuel + 1, cs =>
    match cs with
    | '"' :: rest =>
        match readStrBody rest [] with
        | some (k, rest0) =>
            match rest0 with
            | ':' :: rest1 =>
                match jread fuel rest1 with
                | some (v, rest2) =>
                    match rest2 with
                    | ',' :: rest3 =>
                        match jreadFields fuel rest3 with
                        | some (fs, rest4) => some ((⟨k⟩, v) :: fs, rest4)
                        | none => none
                    | '}' :: rest3 => some ([(⟨k⟩, v)], rest3)
                    | _ => none
                | none => none
            | _ => none
        | none => none
    | _ => none

end

/-- The model of `JSON.parse`: `none` models a thrown `SyntaxError`. The
fuel `2 * length + 2` dominates the nesting size of any value a string of
that length can denote (`jreadSize_le_jchars` below). -/
def jsonParse (s : String) : Option JVal :=
  match jread (2 * s.data.length + 2) s.data with
  | some (v, []) => some v
  | _ => none

example : jsonParse (jsonStringify (.arr [.num (-12), .null, .str "a\"b\\c"]))
    = some (.arr [.num (-12), .null, .str "a\"b\\c"]) := by decide
example : jsonParse (jsonStringify (.obj [("id", .num 1), ("xs", .arr [.bool false])]))
    = some (.obj [("id", .num 1), ("xs", .arr [.bool false])]) := by decide
example : jsonParse "07" = some (.num 7) := by decide
example : jsonParse "tru" = none := by decide

/-- Whether an association list has pairwise distinct keys. -/
def nodupKeys : List (String × JVal) → Bool
  | [] => true
  | (k, _) :: rest => !(rest.any (fun kv => kv.1 == k)) && nodupKeys rest

mutual

/-- A JSON-representable value: every object in it has distinct keys (a real
JavaScript object cannot carry a repeated key, so exactly these values arise
from `JSON.stringify`). -/
def wfJ : JVal → Bool
  | .null => true
  | .bool _ => true
  | .num _ => true
  | .str _ => true
  | .arr l => wfItems l
  | .obj fs => nodupKeys fs && wfFields fs

def wfItems : List JVal → Bool
  | [] => true
  | v :: rest => wfJ v && wfItems rest

def wfFields : List (String × JVal) → Bool
  | [] => true
  | (_, v) :: rest => wfJ v && wfFields rest

end

mutual

/-- Fuel needed by `jread` for a value (one unit per parser call). -/
def jreadSize : JVal → Nat
  | .null => 1
  | .bool _ => 1
  | .num _ => 1
  | .str _ => 1
  | .arr l => jreadSizeItems l + 1
  | .obj fs => jreadSizeFields fs + 1

def jreadSizeItems : List JVal → Nat
  | [] => 1
  | v :: rest => max (jreadSize v) (jreadSizeItems rest) + 1

def jreadSizeFields : List (String × JVal) → Nat
  | [] => 1
  | (_, v) :: rest => max (jreadSize v) (jreadSizeFields rest) + 1

end

theorem digCh_isDigit : ∀ d < 10, (digCh d).isDigit = true ∧ (digCh d).toNat - 48 = d := by decide

theorem readDigits_stop {cs : List Char} (acc : Nat)
    (h : ∀ c ∈ cs.head?, c.isDigit = false) : readDigits cs acc = (acc, cs) := by
  cases cs with
  | nil => rfl
  | cons c rest => simp [readDigits, h c (by simp)]

theorem readDigits_decDigits :
    ∀ (fuel n acc : Nat) (rest : List Char), n < fuel →
      readDigits (decDigits fuel n ++ rest) acc
        = readDigits rest (acc * 10 ^ (decDigits fuel n).length + n) := by
  intro fuel
  induction fuel with
  | zero => omega
  | succ fuel ih =>
      intro n acc rest hn
      by_cases h10 : n < 10
      · have hd := digCh_isDigit n h10
        simp [decDigits, h10, readDigits, hd.1, hd.2]
      · have hrec : n / 10 < fuel := by omega
        have hmod := digCh_isDigit (n % 10) (by omega)
        rw [decDigits, if_neg h10]
        simp only [List.append_assoc, List.cons_append, List.nil_append]
        rw [ih (n / 10) acc (digCh (n % 10) :: rest) hrec]
        rw [readDigits, if_pos hmod.1, hmod.2]
        rw [List.length_append, List.length_singleton, pow_succ]
        ring_nf
        congr 1
        omega

theorem readDigits_natChars (n : Nat) (rest : List Char)
    (h : ∀ c ∈ rest.head?, c.isDigit = false) :
    readDigits (natChars n ++ rest) 0 = (n, rest) := by
  rw [natChars, readDigits_decDigits (n + 1) n 0 rest (by omega), readDigits_stop _ h]
  simp

theorem decDigits_digits : ∀ (fuel n : Nat), ∀ c ∈ decDigits fuel n, c.isDigit = true := by
  intro fuel
  induction fuel with
  | zero => simp [decDigits]
  | succ fuel ih =>
      intro n c hc
      by_cases h10 : n < 10
      · simp [decDigits, h10] at hc
        exact hc ▸ (digCh_isDigit n h10).1
      · rw [decDigits, if_neg h10] at hc
        rcases List.mem_append.mp hc with h | h
        · exact ih (n / 10) c h
        · rw [List.mem_singleton] at h
          exact h ▸ (digCh_isDigit (n % 10) (by omega)).1

theorem natChars_cons (n : Nat) : ∃ c t, natChars n = c :: t ∧ c.isDigit = true := by
  rw [natChars]
  by_cases h10 : n < 10
  · exact ⟨digCh n, [], by simp [decDigits, h10], (digCh_isDigit n h10).1⟩
  · rw [decDigits, if_neg h10]
    have hne : decDigits n (n / 10) ≠ [] := by
      cases hn : decDigits n (n / 10) with
      | nil =>
          exfalso
          have : readDigits (decDigits n (n / 10) ++ []) 0
              = readDigits [] (0 * 10 ^ (decDigits n (n / 10)).length + n / 10) :=
            readDigits_decDigits n (n / 10) 0 [] (by omega)
          rw [hn] at this
          simp [readDigits] at this
          omega
      | cons _ _ => simp [hn]
    cases hn : decDigits n (n / 10) with
    | nil => exact absurd hn hne
    | cons c t =>
        exact ⟨c, t ++ [digCh (n % 10)], by simp [hn],
          decDigits_digits n (n / 10) c (hn ▸ List.mem_cons_self c t)⟩

theorem readNum_natChars (n : Nat) (rest : List Char)
    (h : ∀ c ∈ rest.head?, c.isDigit = false) :
    readNum (natChars n ++ rest) = some (n, rest) := by
  obtain ⟨c, t, hn, hc⟩ := natChars_cons n
  have := readDigits_natChars n rest h
  rw [hn] at this ⊢
  simp only [List.cons_append] at this
  simp only [List.cons_append, readNum, if_pos hc]
  rw [this]

theorem hexv_hexDigit : ∀ d < 16, hexv (hexDigit d) = some d := by decide

theorem readStrBody_escapeOne (c : Char) (rest acc : List Char) :
    readStrBody (escapeOne c ++ rest) acc = readStrBody rest (c :: acc) := by
  by_cases h1 : c = '"'
  · subst h1; simp [escapeOne, readStrBody, unescZ]
  by_cases h2 : c = '\\'
  · subst h2; simp [escapeOne, readStrBody, unescZ]
  by_cases h3 : c = Char.ofNat 8
  · subst h3; simp [escapeOne, readStrBody, unescZ]
  by_cases h4 : c = '\t'
  · subst h4; simp [escapeOne, readStrBody, unescZ]
  by_cases h5 : c = '\n'
  · subst h5; simp [escapeOne, readStrBody, unescZ]
  by_cases h6 : c = Char.ofNat 12
  · subst h6; simp [escapeOne, readStrBody, unescZ]
  by_cases h7 : c = '\r'
  · subst h7; simp [escapeOne, readStrBody, unescZ]
  by_cases h8 : c.toNat < 32
  · have hhi : hexv (hexDigit (c.toNat / 16)) = some (c.toNat / 16) :=
      hexv_hexDigit _ (by omega)
    have hlo : hexv (hexDigit (c.toNat % 16)) = some (c.toNat % 16) :=
      hexv_hexDigit _ (by omega)
    have hval : ((0 * 16 + 0) * 16 + c.toNat / 16) * 16 + c.toNat % 16 = c.toNat := by omega
    have hvalid : Nat.isValidChar c.toNat := Or.inl (by omega)
    have h0 : hexv '0' = some 0 := by decide
    simp only [escapeOne, if_neg h1, if_neg h2, if_neg h3, if_neg h4, if_neg h5,
      if_neg h6, if_neg h7, if_pos h8, List.cons_append, List.nil_append]
    simp only [readStrBody, h0, hhi, hlo]
    rw [hval, if_pos hvalid, Char.ofNat_toNat]
  · simp only [escapeOne, if_neg h1, if_neg h2, if_neg h3, if_neg h4, if_neg h5,
      if_neg h6, if_neg h7, if_neg h8, List.cons_append, List.nil_append]
    rw [readStrBody.eq_def]
    have hq : ('"' : Char) ≠ c := fun e => h1 e.symm
    have hb : ('\\' : Char) ≠ c := fun e => h2 e.symm
    simp [h1, h2, h8, hq, hb]

theorem readStrBody_escapeAll (cs : List Char) : ∀ (acc rest : List Char),
    readStrBody (escapeAll cs ++ '"' :: rest) acc = some (acc.reverse ++ cs, rest) := by
  induction cs with
  | nil => intro acc rest; simp [escapeAll, readStrBody]
  | cons c cs ih =>
      intro acc rest
      rw [escapeAll, List.append_assoc, readStrBody_escapeOne, ih]
      simp


/-- JavaScript property read `o[k]` on an association list (first match; the
lists built by `objSet` never repeat a key, so first = only). -/
def objLookup : List (String × JVal) → String → Option JVal
  | [], _ => none
  | (k', v') :: rest, k => if k' = k then some v' else objLookup rest k

theorem objSet_fresh (k : String) (v : JVal) :
    ∀ fs : List (String × JVal), (∀ kv ∈ fs, kv.1 ≠ k) → objSet fs k v = fs ++ [(k, v)] := by
  intro fs
  induction fs with
  | nil => intro _; rfl
  | cons kv rest ih =>
      intro h
      obtain ⟨k', v'⟩ := kv
      rw [objSet, if_neg (h (k', v') (by simp)), ih (fun x hx => h x (by simp [hx]))]
      simp

theorem foldl_objSet_fresh :
    ∀ (fs acc : List (String × JVal)), nodupKeys fs = true →
      (∀ kv ∈ fs, ∀ kv' ∈ acc, kv'.1 ≠ kv.1) →
      fs.foldl (fun a kv => objSet a kv.1 kv.2) acc = acc ++ fs := by
  intro fs
  induction fs with
  | nil => intro acc _ _; simp
  | cons kv rest ih =>
      intro acc hnd hdis
      obtain ⟨k, v⟩ := kv
      have hk : ∀ kv' ∈ acc, kv'.1 ≠ k := fun kv' h' => hdis (k, v) (by simp) kv' h'
      have hnd' : nodupKeys rest = true := by
        have := hnd; rw [nodupKeys, Bool.and_eq_true] at this; exact this.2
      have hfresh : ∀ kv' ∈ rest, kv'.1 ≠ k := by
        intro kv' h' he
        have := hnd; rw [nodupKeys, Bool.and_eq_true] at this
        have hany := this.1
        rw [Bool.not_eq_true', List.any_eq_false] at hany
        exact absurd (by simpa using he) (by simpa using hany kv' h')
      rw [List.foldl_cons]
      have hset : objSet acc k v = acc ++ [(k, v)] := by
        apply objSet_fresh
        intro kv' h' he
        exact hk kv' h' he
      rw [hset, ih (acc ++ [(k, v)]) hnd']
      · simp
      · intro kv1 h1 kv2 h2
        rcases List.mem_append.mp h2 with h2a | h2b
        · exact hdis kv1 (by simp [h1]) kv2 h2a
        · rw [List.mem_singleton] at h2b
          subst h2b
          exact fun he => hfresh kv1 h1 he.symm

theorem objLookup_objSet_self (fs : List (String × JVal)) (k : String) (v : JVal) :
    objLookup (objSet fs k v) k = some v := by
  induction fs with
  | nil => simp [objSet, objLookup]
  | cons kv rest ih =>
      obtain ⟨k', v'⟩ := kv
      by_cases h : k' = k
      · simp [objSet, h, objLookup]
      · simp [objSet, h, objLookup, ih]

theorem objLookup_objSet_ne (fs : List (String × JVal)) (k k' : String) (v : JVal)
    (h : k' ≠ k) : objLookup (objSet fs k v) k' = objLookup fs k' := by
  have hks : ¬ k = k' := fun e => h e.symm
  induction fs with
  | nil => simp [objSet, objLookup, hks]
  | cons kv rest ih =>
      obtain ⟨k1, v1⟩ := kv
      by_cases h1 : k1 = k
      · subst h1
        simp [objSet, objLookup, hks]
      · simp only [objSet, if_neg h1, objLookup]
        by_cases h2 : k1 = k'
        · simp [h2]
        · simp [h2, ih]

theorem digit_no_keyword {c : Char} (h : c.isDigit = true) :
    c ≠ 'n' ∧ c ≠ 't' ∧ c ≠ 'f' ∧ c ≠ '"' ∧ c ≠ '[' ∧ c ≠ '{' ∧ c ≠ '-' ∧
    c ≠ ']' ∧ c ≠ '}' ∧ c ≠ ',' := by
  refine ⟨?_, ?_, ?_, ?_, ?_, ?_, ?_, ?_, ?_, ?_⟩ <;>
    (rintro rfl; exact absurd h (by decide))


theorem dropLit_append (es rest : List Char) : dropLit es (es ++ rest) = some rest := by
  induction es with
  | nil => rfl
  | cons e es ih => simp [dropLit, ih]

theorem natChars_ne_nil (n : Nat) : natChars n ≠ [] := by
  obtain ⟨c, t, h, -⟩ := natChars_cons n
  simp [h]

theorem jchars_head (v : JVal) : ∃ c t, jchars v = c :: t ∧ c ≠ ']' ∧ c ≠ '}' := by
  cases v with
  | null => exact ⟨'n', _, rfl, by decide, by decide⟩
  | bool b =>
      cases b with
      | true => exact ⟨'t', _, rfl, by decide, by decide⟩
      | false => exact ⟨'f', _, rfl, by decide, by decide⟩
  | num i =>
      by_cases hi : i < 0
      · exact ⟨'-', natChars i.natAbs, by simp [jchars, intChars, hi], by decide, by decide⟩
      · obtain ⟨c, t, hct, hd⟩ := natChars_cons i.toNat
        obtain ⟨-, -, -, -, -, -, -, hne1, hne2, -⟩ := digit_no_keyword hd
        exact ⟨c, t, by simp [jchars, intChars, hi, hct], hne1, hne2⟩
  | str s => exact ⟨'"', _, rfl, by decide, by decide⟩
  | arr l => exact ⟨'[', _, rfl, by decide, by decide⟩
  | obj fs => exact ⟨'{', _, rfl, by decide, by decide⟩

theorem jcharsItems_head (v : JVal) (l : List JVal) :
    ∃ c t, jcharsItems (v :: l) = c :: t ∧ c ≠ ']' ∧ c ≠ '}' := by
  obtain ⟨c, t, hct, h1, h2⟩ := jchars_head v
  cases l with
  | nil => exact ⟨c, t, by simp [jcharsItems, hct], h1, h2⟩
  | cons w l' =>
      exact ⟨c, t ++ ',' :: jcharsItems (w :: l'), by simp [jcharsItems, hct], h1, h2⟩

mutual

theorem jreadSize_le : ∀ v : JVal, jreadSize v ≤ 2 * (jchars v).length
  | .null => by simp [jreadSize, jchars]
  | .bool b => by cases b <;> simp [jreadSize, jchars]
  | .num i => by
      have h1 : (jchars (.num i)).length ≥ 1 := by
        obtain ⟨c, t, hct, -⟩ := jchars_head (.num i)
        simp [hct]
      simp only [jreadSize]
      omega
  | .str s => by simp [jreadSize, jchars, strChars]; omega
  | .arr l => by
      have h := jreadSizeItems_le l
      simp only [jreadSize, jchars, List.length_cons, List.length_append]
      omega
  | .obj fs => by
      have h := jreadSizeFields_le fs
      simp only [jreadSize, jchars, List.length_cons, List.length_append]
      omega

theorem jreadSizeItems_le : ∀ l : List JVal, jreadSizeItems l ≤ 2 * (jcharsItems l).length + 3
  | [] => by simp [jreadSizeItems, jcharsItems]
  | [v] => by
      have h := jreadSize_le v
      simp only [jreadSizeItems, jreadSizeItems.eq_1, jcharsItems]
      omega
  | v :: w :: l => by
      have h1 := jreadSize_le v
      have h2 := jreadSizeItems_le (w :: l)
      have hm : jreadSizeItems (v :: w :: l)
          = max (jreadSize v) (jreadSizeItems (w :: l)) + 1 := rfl
      have hlen : (jcharsItems (v :: w :: l)).length
          = (jchars v).length + 1 + (jcharsItems (w :: l)).length := by
        simp [jcharsItems]
        omega
      have hmax : max (jreadSize v) (jreadSizeItems (w :: l))
          ≤ 2 * (jchars v).length + 2 * (jcharsItems (w :: l)).length + 3 :=
        max_le (by omega) (by omega)
      rw [hm, hlen]
      omega

theorem jreadSizeFields_le :
    ∀ fs : List (String × JVal), jreadSizeFields fs ≤ 2 * (jcharsFields fs).length + 3
  | [] => by simp [jreadSizeFields, jcharsFields]
  | [(k, v)] => by
      have h := jreadSize_le v
      simp only [jreadSizeFields, jreadSizeFields.eq_1, jcharsFields, strChars,
        List.length_append, List.length_cons]
      omega
  | (k, v) :: (k', v') :: fs => by
      have h1 := jreadSize_le v
      have h2 := jreadSizeFields_le ((k', v') :: fs)
      have hm : jreadSizeFields ((k, v) :: (k', v') :: fs)
          = max (jreadSize v) (jreadSizeFields ((k', v') :: fs)) + 1 := rfl
      have hlen : (jcharsFields ((k, v) :: (k', v') :: fs)).length
          = (strChars k).length + 1 + (jchars v).length + 1
            + (jcharsFields ((k', v') :: fs)).length := by
        simp [jcharsFields]
        omega
      have hmax : max (jreadSize v) (jreadSizeFields ((k', v') :: fs))
          ≤ 2 * (jchars v).length + 2 * (jcharsFields ((k', v') :: fs)).length + 3 :=
        max_le (by omega) (by omega)
      rw [hm, hlen]
      omega

end

theorem jreadSize_pos (v : JVal) : 1 ≤ jreadSize v := by
  cases v <;> simp [jreadSize]

theorem jreadSizeItems_pos (l : List JVal) : 1 ≤ jreadSizeItems l := by
  cases l <;> simp [jreadSizeItems]

theorem jreadSizeFields_pos (fs : List (String × JVal)) : 1 ≤ jreadSizeFields fs := by
  cases fs with
  | nil => simp [jreadSizeFields]
  | cons kv rest => obtain ⟨k, v⟩ := kv; simp [jreadSizeFields]

theorem jread_open_arr (fuel : Nat) (c0 : Char) (t : List Char) (l : List JVal) (r : List Char)
    (hne : c0 ≠ ']') (hit : jreadItems fuel (c0 :: t) = some (l, r)) :
    jread (fuel + 1) ('[' :: c0 :: t) = some (.arr l, r) := by
  simp only [jread]
  rw [if_neg (show ¬ ('[' : Char) = 'n' by decide),
    if_neg (show ¬ ('[' : Char) = 't' by decide),
    if_neg (show ¬ ('[' : Char) = 'f' by decide),
    if_neg (show ¬ ('[' : Char) = '"' by decide)]
  simp only [if_true]
  split
  · rename_i heq
    injection heq with e1 e2
    exact absurd e1 hne
  · rw [hit]

theorem jread_open_obj (fuel : Nat) (c0 : Char) (t : List Char)
    (fs : List (String × JVal)) (r : List Char)
    (hne : c0 ≠ '}') (hjf : jreadFields fuel (c0 :: t) = some (fs, r)) :
    jread (fuel + 1) ('{' :: c0 :: t)
      = some (.obj (fs.foldl (fun acc kv => objSet acc kv.1 kv.2) []), r) := by
  simp only [jread]
  rw [if_neg (show ¬ ('{' : Char) = 'n' by decide),
    if_neg (show ¬ ('{' : Char) = 't' by decide),
    if_neg (show ¬ ('{' : Char) = 'f' by decide),
    if_neg (show ¬ ('{' : Char) = '"' by decide),
    if_neg (show ¬ ('{' : Char) = '[' by decide)]
  simp only [if_true]
  split
  · rename_i heq
    injection heq with e1 e2
    exact absurd e1 hne
  · rw [hjf]

theorem jread_digit (fuel : Nat) (c0 : Char) (t : List Char) (n : Nat) (r : List Char)
    (hd : c0.isDigit = true) (hrn : readNum (c0 :: t) = some (n, r)) :
    jread (fuel + 1) (c0 :: t) = some (.num (n : Int), r) := by
  obtain ⟨k1, k2, k3, k4, k5, k6, k7, -, -, -⟩ := digit_no_keyword hd
  simp only [jread, if_neg k1, if_neg k2, if_neg k3, if_neg k4, if_neg k5, if_neg k6,
    if_neg k7, if_pos hd]
  rw [hrn]

/-- Heads that may legally follow a complete JSON number in our grammar. -/
def nonDigitHead (cs : List Char) : Prop := ∀ c ∈ cs.head?, c.isDigit = false

theorem nonDigitHead_cons {c : Char} (t : List Char) (h : c.isDigit = false) :
    nonDigitHead (c :: t) := by
  intro x hx
  simp at hx
  exact hx ▸ h

theorem jread_roundtrip : ∀ fuel : Nat,
    (∀ (v : JVal) (rest : List Char), wfJ v = true → jreadSize v ≤ fuel →
      nonDigitHead rest → jread fuel (jchars v ++ rest) = some (v, rest))
  ∧ (∀ (l : List JVal) (rest : List Char), wfItems l = true → l ≠ [] →
      jreadSizeItems l ≤ fuel →
      jreadItems fuel (jcharsItems l ++ ']' :: rest) = some (l, rest))
  ∧ (∀ (fs : List (String × JVal)) (rest : List Char), wfFields fs = true → fs ≠ [] →
      jreadSizeFields fs ≤ fuel →
      jreadFields fuel (jcharsFields fs ++ '}' :: rest) = some (fs, rest)) := by
  intro fuel
  induction fuel with
  | zero =>
      refine ⟨?_, ?_, ?_⟩
      · intro v _ _ hsz _
        exact absurd hsz (by have := jreadSize_pos v; omega)
      · intro l _ _ _ hsz
        exact absurd hsz (by have := jreadSizeItems_pos l; omega)
      · intro fs _ _ _ hsz
        exact absurd hsz (by have := jreadSizeFields_pos fs; omega)
  | succ fuel ih =>
      obtain ⟨ih1, ih2, ih3⟩ := ih
      refine ⟨?_, ?_, ?_⟩
      · -- one value
        intro v rest hwf hsz hrest
        cases v with
        | null => simp [jchars, jread, dropLit]
        | bool b => cases b <;> simp [jchars, jread, dropLit]
        | num i =>
            by_cases hi : i < 0
            · have hj : jchars (.num i) = '-' :: natChars i.natAbs := by
                simp [jchars, intChars, hi]
              have hrn : readNum (natChars i.natAbs ++ rest) = some (i.natAbs, rest) :=
                readNum_natChars _ _ hrest
              rw [hj]
              simp only [List.cons_append, jread,
                if_neg (show ¬ ('-' : Char) = 'n' by decide),
                if_neg (show ¬ ('-' : Char) = 't' by decide),
                if_neg (show ¬ ('-' : Char) = 'f' by decide),
                if_neg (show ¬ ('-' : Char) = '"' by decide),
                if_neg (show ¬ ('-' : Char) = '[' by decide),
                if_neg (show ¬ ('-' : Char) = '{' by decide), if_true]
              rw [hrn]
              simp only [Option.some.injEq, Prod.mk.injEq, JVal.num.injEq]
              refine ⟨by omega, by simp⟩
            · have hj : jchars (.num i) = natChars i.toNat := by
                simp [jchars, intChars, hi]
              obtain ⟨c, t, hct, hd⟩ := natChars_cons i.toNat
              have hrn : readNum (natChars i.toNat ++ rest) = some (i.toNat, rest) :=
                readNum_natChars _ _ hrest
              rw [hct] at hrn
              simp only [List.cons_append] at hrn
              rw [hj, hct]
              simp only [List.cons_append]
              rw [jread_digit fuel c (t ++ rest) i.toNat rest hd hrn]
              simp only [Option.some.injEq, Prod.mk.injEq, JVal.num.injEq]
              refine ⟨by omega, by simp⟩
        | str s =>
            have hsb := readStrBody_escapeAll s.data [] rest
            simp only [jchars, strChars, List.cons_append, List.append_assoc,
              List.singleton_append, List.nil_append, jread,
              if_neg (show ¬ ('"' : Char) = 'n' by decide),
              if_neg (show ¬ ('"' : Char) = 't' by decide),
              if_neg (show ¬ ('"' : Char) = 'f' by decide), if_true]
            rw [hsb]
            simp
        | arr l =>
            cases l with
            | nil =>
                simp [jchars, jcharsItems, jread,
                  if_neg (show ¬ ('[' : Char) = 'n' by decide)]
            | cons v l' =>
                obtain ⟨c0, t0, hct, hne, -⟩ := jcharsItems_head v l'
                have hwf' : wfItems (v :: l') = true := by simpa [wfJ] using hwf
                have hsz' : jreadSizeItems (v :: l') ≤ fuel := by
                  have he : jreadSize (.arr (v :: l')) = jreadSizeItems (v :: l') + 1 := rfl
                  omega
                have hit := ih2 (v :: l') rest hwf' (by simp) hsz'
                rw [hct] at hit
                have hshape : jchars (.arr (v :: l')) ++ rest
                    = '[' :: c0 :: (t0 ++ ']' :: rest) := by
                  simp [jchars, hct]
                rw [hshape, jread_open_arr fuel c0 (t0 ++ ']' :: rest) (v :: l') rest hne
                  (by simpa using hit)]
        | obj fs =>
            cases fs with
            | nil =>
                simp [jchars, jcharsFields, jread,
                  if_neg (show ¬ ('{' : Char) = 'n' by decide),
                  if_neg (show ¬ ('{' : Char) = '[' by decide)]
            | cons kv fs' =>
                obtain ⟨k0, v0⟩ := kv
                have hwfo : nodupKeys ((k0, v0) :: fs') = true
                    ∧ wfFields ((k0, v0) :: fs') = true := by
                  have := hwf
                  simp only [wfJ, Bool.and_eq_true] at this
                  exact this
                have hsz' : jreadSizeFields ((k0, v0) :: fs') ≤ fuel := by
                  have he : jreadSize (.obj ((k0, v0) :: fs'))
                      = jreadSizeFields ((k0, v0) :: fs') + 1 := rfl
                  omega
                have hjf := ih3 ((k0, v0) :: fs') rest hwfo.2 (by simp) hsz'
                obtain ⟨X, hX⟩ : ∃ X, jcharsFields ((k0, v0) :: fs') = '"' :: X := by
                  cases fs' with
                  | nil =>
                      exact ⟨escapeAll k0.data ++ '"' :: ':' :: jchars v0,
                        by simp [jcharsFields, strChars]⟩
                  | cons kv2 fs2 =>
                      exact ⟨escapeAll k0.data ++ '"' :: ':'
                          :: (jchars v0 ++ ',' :: jcharsFields (kv2 :: fs2)),
                        by simp [jcharsFields, strChars]⟩
                rw [hX] at hjf
                have hshape : jchars (.obj ((k0, v0) :: fs')) ++ rest
                    = '{' :: '"' :: (X ++ '}' :: rest) := by
                  simp [jchars, hX]
                rw [hshape, jread_open_obj fuel '"' (X ++ '}' :: rest) ((k0, v0) :: fs') rest
                  (by decide) (by simpa using hjf)]
                rw [foldl_objSet_fresh ((k0, v0) :: fs') [] hwfo.1 (by simp)]
                simp
      · -- item lists
        intro l rest hwf hne hsz
        cases l with
        | nil => exact absurd rfl hne
        | cons v l' =>
            cases l' with
            | nil =>
                have hszv : jreadSize v ≤ fuel := by
                  have he : jreadSizeItems [v] = max (jreadSize v) (jreadSizeItems []) + 1 := rfl
                  have hm : jreadSize v ≤ max (jreadSize v) (jreadSizeItems []) := le_max_left _ _
                  omega
                have hwfv : wfJ v = true := by
                  simpa [wfItems, Bool.and_eq_true] using hwf
                have h1 := ih1 v (']' :: rest) hwfv hszv
                  (nonDigitHead_cons _ (by decide))
                simp only [jcharsItems, jreadItems, h1]
            | cons w l'' =>
                have hwf1 : wfJ v = true ∧ wfItems (w :: l'') = true := by
                  simpa [wfItems, Bool.and_eq_true] using hwf
                have hszs : jreadSize v ≤ fuel ∧ jreadSizeItems (w :: l'') ≤ fuel := by
                  have he : jreadSizeItems (v :: w :: l'')
                      = max (jreadSize v) (jreadSizeItems (w :: l'')) + 1 := rfl
                  have hm1 : jreadSize v ≤ max (jreadSize v) (jreadSizeItems (w :: l'')) :=
                    le_max_left _ _
                  have hm2 : jreadSizeItems (w :: l'')
                      ≤ max (jreadSize v) (jreadSizeItems (w :: l'')) := le_max_right _ _
                  omega
                have h1 := ih1 v (',' :: (jcharsItems (w :: l'') ++ ']' :: rest)) hwf1.1 hszs.1
                  (nonDigitHead_cons _ (by decide))
                have h2 := ih2 (w :: l'') rest hwf1.2 (by simp) hszs.2
                have hshape : jcharsItems (v :: w :: l'') ++ ']' :: rest
                    = jchars v ++ (',' :: (jcharsItems (w :: l'') ++ ']' :: rest)) := by
                  simp [jcharsItems]
                rw [hshape]
                simp only [jreadItems, h1, h2]
      · -- field lists
        intro fs rest hwf hne hsz
        cases fs with
        | nil => exact absurd rfl hne
        | cons kv fs' =>
            obtain ⟨k, v⟩ := kv
            cases fs' with
            | nil =>
                have hszv : jreadSize v ≤ fuel := by
                  have he : jreadSizeFields [(k, v)]
                      = max (jreadSize v) (jreadSizeFields []) + 1 := rfl
                  have hm : jreadSize v ≤ max (jreadSize v) (jreadSizeFields []) :=
                    le_max_left _ _
                  omega
                have hwfv : wfJ v = true := by
                  simpa [wfFields, Bool.and_eq_true] using hwf
                have h1 := ih1 v ('}' :: rest) hwfv hszv (nonDigitHead_cons _ (by decide))
                have hsb := readStrBody_escapeAll k.data []
                  (':' :: (jchars v ++ '}' :: rest))
                have hshape : jcharsFields [(k, v)] ++ '}' :: rest
                    = '"' :: (escapeAll k.data ++ '"'
                        :: (':' :: (jchars v ++ '}' :: rest))) := by
                  simp [jcharsFields, strChars]
                rw [hshape]
                simp only [jreadFields, hsb, h1]
                simp
            | cons kv' fs'' =>
                obtain ⟨k', v'⟩ := kv'
                have hwf1 : wfJ v = true ∧ wfFields ((k', v') :: fs'') = true := by
                  simpa [wfFields, Bool.and_eq_true] using hwf
                have hszs : jreadSize v ≤ fuel
                    ∧ jreadSizeFields ((k', v') :: fs'') ≤ fuel := by
                  have he : jreadSizeFields ((k, v) :: (k', v') :: fs'')
                      = max (jreadSize v) (jreadSizeFields ((k', v') :: fs'')) + 1 := rfl
                  have hm1 : jreadSize v
                      ≤ max (jreadSize v) (jreadSizeFields ((k', v') :: fs'')) :=
                    le_max_left _ _
                  have hm2 : jreadSizeFields ((k', v') :: fs'')
                      ≤ max (jreadSize v) (jreadSizeFields ((k', v') :: fs'')) :=
                    le_max_right _ _
                  omega
                have h1 := ih1 v
                  (',' :: (jcharsFields ((k', v') :: fs'') ++ '}' :: rest)) hwf1.1 hszs.1
                  (nonDigitHead_cons _ (by decide))
                have h2 := ih3 ((k', v') :: fs'') rest hwf1.2 (by simp) hszs.2
                have hsb := readStrBody_escapeAll k.data []
                  (':' :: (jchars v ++ ',' :: (jcharsFields ((k', v') :: fs'') ++ '}' :: rest)))
                have hshape : jcharsFields ((k, v) :: (k', v') :: fs'') ++ '}' :: rest
                    = '"' :: (escapeAll k.data ++ '"' :: (':' :: (jchars v
                        ++ ',' :: (jcharsFields ((k', v') :: fs'') ++ '}' :: rest)))) := by
                  simp [jcharsFields, strChars]
                rw [hshape]
                simp only [jreadFields, hsb, h1, h2]
                simp

theorem jchars_ne_nil (v : JVal) : jchars v ≠ [] := by
  obtain ⟨c, t, hct, -, -⟩ := jchars_head v
  simp [hct]

/-- The codec round-trip at the character level, fuel instantiated. -/
theorem jread_jchars (v : JVal) (h : wfJ v = true) :
    jread (2 * (jchars v).length + 2) (jchars v) = some (v, []) := by
  have hle := jreadSize_le v
  have hrt := (jread_roundtrip (2 * (jchars v).length + 2)).1 v [] h (by omega)
    (by intro c hc; simp at hc)
  rwa [List.append_nil] at hrt

/-- Parsing a stringified JSON-representable value gives the value back. -/
theorem jsonParse_jsonStringify (v : JVal) (h : wfJ v = true) :
    jsonParse (jsonStringify v) = some v := by
  unfold jsonParse jsonStringify
  rw [show (⟨jchars v⟩ : String).data = jchars v from rfl, jread_jchars v h]

theorem jsonStringify_ne_empty (v : JVal) : jsonStringify v ≠ "" := by
  intro h
  have : jchars v = [] := congrArg String.data h
  exact jchars_ne_nil v this

/-! ### The store

`Store` is the raw browser storage: one optional string per key. Code below
this point is translated from the repository's local data-access module
(`STORAGE_KEYS`, `LS`, `seedIfEmpty`, the fetch operations, and `postData`).
-/

/-- The raw key-value storage behind `localStorage`. -/
def Store : Type := String → Option String

/-- Model of `localStorage.setItem`. -/
def setItem (k v : String) (s : Store) : Store := fun k' => if k' = k then some v else s k'

theorem setItem_same (k v : String) (s : Store) : setItem k v s k = some v := by
  simp [setItem]

theorem setItem_other (k v k' : String) (s : Store) (h : k' ≠ k) :
    setItem k v s k' = s k' := by
  simp [setItem, h]

/-- Model of `LS.get(key, fallback)`: absent key, empty raw string, or a raw
string `JSON.parse` rejects all resolve to the caller-supplied fallback. -/
def lsGet (s : Store) (k : String) (fallback : JVal) : JVal :=
  match s k with
  | none => fallback
  | some raw => if raw = "" then fallback else (jsonParse raw).getD fallback

/-- Model of `LS.get(key)` without a fallback argument (the seed checks):
the fallback is JavaScript `undefined`, modelled as `none`. -/
def lsGetU (s : Store) (k : String) : Option JVal :=
  match s k with
  | none => none
  | some raw => if raw = "" then none else jsonParse raw

/-- Model of `LS.set(key, value)`: serialize, then store. -/
def lsSet (k : String) (v : JVal) (s : Store) : Store := setItem k (jsonStringify v) s

theorem lsGet_lsSet_same (s : Store) (k : String) (v fb : JVal) (h : wfJ v = true) :
    lsGet (lsSet k v s) k fb = v := by
  unfold lsGet lsSet
  rw [setItem_same]
  simp only [if_neg (jsonStringify_ne_empty v), jsonParse_jsonStringify v h, Option.getD_some]

theorem lsGetU_lsSet_same (s : Store) (k : String) (v : JVal) (h : wfJ v = true) :
    lsGetU (lsSet k v s) k = some v := by
  unfold lsGetU lsSet
  rw [setItem_same]
  simp only [if_neg (jsonStringify_ne_empty v), jsonParse_jsonStringify v h]

theorem lsGet_lsSet_other (s : Store) (k k' : String) (v fb : JVal) (h : k' ≠ k) :
    lsGet (lsSet k v s) k' fb = lsGet s k' fb := by
  unfold lsGet lsSet
  rw [setItem_other _ _ _ _ h]

theorem lsGetU_lsSet_other (s : Store) (k k' : String) (v : JVal) (h : k' ≠ k) :
    lsGetU (lsSet k v s) k' = lsGetU s k' := by
  unfold lsGetU lsSet
  rw [setItem_other _ _ _ _ h]

/-! ### Storage keys and seed data (from `STORAGE_KEYS` and `seedIfEmpty`) -/

def kInventory : String := "bl_admin_inventory"
def kTeams : String := "bl_admin_teams"
def kCoaches : String := "bl_admin_coaches"
def kSchedule : String := "bl_admin_schedule"
def kLocations : String := "bl_admin_locations"
def kCategories : String := "bl_admin_categories"
def kStatuses : String := "bl_admin_statuses"
def kConcessions : String := "bl_admin_concessions"
def kEventUsage : String := "bl_admin_event_usage"
def kEventRequests : String := "bl_admin_event_requests"

def teamsSeed : JVal := .arr [
  .obj [("id", .num 1), ("name", .str "Bucksport Blue Jays")],
  .obj [("id", .num 2), ("name", .str "Softball Stars")],
  .obj [("id", .num 3), ("name", .str "Minor League All-Stars")]]

def coachesSeed : JVal := .arr [
  .obj [("id", .num 1), ("name", .str "Coach Bob")],
  .obj [("id", .num 2), ("name", .str "Coach Sarah")],
  .obj [("id", .num 3), ("name", .str "Coach Mike")]]

def scheduleSeed : JVal := .arr [
  .obj [("id", .num 1), ("date", .str "2025-07-20"), ("time", .str "18:00"),
    ("type", .str "game"), ("title", .str "Bucksport Blue Jays vs. Orland Orcas"),
    ("location", .str "Field A"), ("team_id", .num 1), ("coach_id", .num 1),
    ("notes", .str "Championship game!")],
  .obj [("id", .num 2), ("date", .str "2025-07-21"), ("time", .str "17:30"),
    ("type", .str "practice"), ("title", .str "Softball Team Practice"),
    ("location", .str "Field B"), ("team_id", .num 2), ("coach_id", .num 2),
    ("notes", .str "Focus on fielding drills.")],
  .obj [("id", .num 3), ("date", .str "2025-07-20"), ("time", .str "16:00"),
    ("type", .str "game"), ("title", .str "Minor League All-Stars"),
    ("location", .str "Field C"), ("team_id", .num 3), ("coach_id", .num 3),
    ("notes", .str "")]]

def locationsSeed : JVal := .arr [.str "Field A", .str "Field B", .str "Field C",
  .str "Community Park"]

def categoriesSeed : JVal := .arr [.str "jersey", .str "pants", .str "hat", .str "cleats",
  .str "bat", .str "ball", .str "glove", .str "helmet", .str "other"]

def statusesSeed : JVal := .arr [.str "in-stock", .str "low-stock", .str "out-of-stock",
  .str "needs-repair", .str "retired"]

/-- The `(key, default)` pairs `seedIfEmpty` checks, in source order. -/
def seedPairs : List (String × JVal) := [
  (kTeams, teamsSeed), (kCoaches, coachesSeed), (kSchedule, scheduleSeed),
  (kLocations, locationsSeed), (kCategories, categoriesSeed), (kStatuses, statusesSeed),
  (kInventory, .arr []), (kConcessions, .arr []), (kEventUsage, .obj []),
  (kEventRequests, .arr [])]

/-- One `if (!LS.get(key)) LS.set(key, seed)` step: the default is written
exactly when the current value of the key reads back falsy. -/
def seedOne (k : String) (v : JVal) (s : Store) : Store :=
  if truthyU (lsGetU s k) then s else lsSet k v s

def seedList : List (String × JVal) → Store → Store
  | [], s => s
  | (k, v) :: rest, s => seedList rest (seedOne k v s)

/-- The module-load seeding step (`seedIfEmpty` in the source). -/
def seedIfEmpty (s : Store) : Store := seedList seedPairs s

theorem seedOne_noop (k : String) (v : JVal) (s : Store)
    (h : truthyU (lsGetU s k) = true) : seedOne k v s = s := by
  simp [seedOne, h]

theorem seedOne_other (k : String) (v : JVal) (s : Store) (k' : String) (h : k' ≠ k) :
    seedOne k v s k' = s k' := by
  unfold seedOne
  split
  · rfl
  · exact setItem_other _ _ _ _ h

theorem lsGetU_seedOne_other (k : String) (v : JVal) (s : Store) (k' : String) (h : k' ≠ k) :
    lsGetU (seedOne k v s) k' = lsGetU s k' := by
  unfold seedOne
  split
  · rfl
  · exact lsGetU_lsSet_other s k k' v h

theorem lsGetU_seedOne_truthy (k : String) (v : JVal) (s : Store)
    (hwf : wfJ v = true) (ht : truthy v = true) :
    truthyU (lsGetU (seedOne k v s) k) = true := by
  unfold seedOne
  split
  · assumption
  · rw [lsGetU_lsSet_same s k v hwf]
    simpa [truthyU] using ht

theorem seedList_other (ps : List (String × JVal)) (s : Store) (k' : String)
    (h : ∀ p ∈ ps, k' ≠ p.1) : seedList ps s k' = s k' := by
  induction ps generalizing s with
  | nil => rfl
  | cons p rest ih =>
      obtain ⟨k, v⟩ := p
      rw [seedList, ih (seedOne k v s) (fun q hq => h q (by simp [hq])),
        seedOne_other k v s k' (h (k, v) (by simp))]

theorem lsGetU_seedList_other (ps : List (String × JVal)) (s : Store) (k' : String)
    (h : ∀ p ∈ ps, k' ≠ p.1) : lsGetU (seedList ps s) k' = lsGetU s k' := by
  induction ps generalizing s with
  | nil => rfl
  | cons p rest ih =>
      obtain ⟨k, v⟩ := p
      rw [seedList, ih (seedOne k v s) (fun q hq => h q (by simp [hq])),
        lsGetU_seedOne_other k v s k' (h (k, v) (by simp))]

theorem seedList_all_truthy (ps : List (String × JVal)) (s : Store)
    (hwf : ∀ p ∈ ps, wfJ p.2 = true ∧ truthy p.2 = true)
    (hnd : ps.Pairwise (fun p q => p.1 ≠ q.1)) :
    ∀ p ∈ ps, truthyU (lsGetU (seedList ps s) p.1) = true := by
  induction ps generalizing s with
  | nil => simp
  | cons q rest ih =>
      obtain ⟨k, v⟩ := q
      intro p hp
      rcases List.mem_cons.mp hp with hp1 | hp2
      · subst hp1
        rw [seedList, lsGetU_seedList_other rest (seedOne k v s) k
          (fun r hr => (List.pairwise_cons.mp hnd).1 r hr)]
        exact lsGetU_seedOne_truthy k v s (hwf (k, v) (by simp)).1 (hwf (k, v) (by simp)).2
      · rw [seedList]
        exact ih (seedOne k v s) (fun r hr => hwf r (by simp [hr]))
          (List.pairwise_cons.mp hnd).2 p hp2

theorem seedList_noop (ps : List (String × JVal)) (s : Store)
    (h : ∀ p ∈ ps, truthyU (lsGetU s p.1) = true) : seedList ps s = s := by
  induction ps with
  | nil => rfl
  | cons q rest ih =>
      obtain ⟨k, v⟩ := q
      rw [seedList, seedOne_noop k v s (h (k, v) (by simp)), ih (fun r hr => h r (by simp [hr]))]

theorem seedPairs_wf_truthy : ∀ p ∈ seedPairs, wfJ p.2 = true ∧ truthy p.2 = true := by
  decide

theorem seedPairs_keys_distinct : seedPairs.Pairwise (fun p q => p.1 ≠ q.1) := by
  decide

/-- Running the seed step twice is the same as running it once. -/
theorem seedIfEmpty_idem (s : Store) : seedIfEmpty (seedIfEmpty s) = seedIfEmpty s :=
  seedList_noop seedPairs (seedIfEmpty s)
    (seedList_all_truthy seedPairs s seedPairs_wf_truthy seedPairs_keys_distinct)

/-- A store whose every collection key reads back truthy is left unchanged. -/
theorem seedIfEmpty_noop (s : Store)
    (h : ∀ p ∈ seedPairs, truthyU (lsGetU s p.1) = true) : seedIfEmpty s = s :=
  seedList_noop seedPairs s h

/-! ### JavaScript value helpers used by the fetch/post operations -/

/-- Property read `v[k]` as JavaScript evaluates it: reading a property of
`null` throws (`none`); objects look the key up; any other value yields
`undefined` for the record fields this module reads (`id`, `quantity`,
`status`, `category` are not built-ins of primitives or arrays). -/
def jsGetProp (v : JVal) (k : String) : Option (Option JVal) :=
  match v with
  | .null => none
  | .obj fs => some (objLookup fs k)
  | _ => some none

/-- Property read on a value already known not to throw. -/
def propOf (v : JVal) (k : String) : Option JVal := (jsGetProp v k).getD none

/-- Map a fallible function over a list, propagating a thrown error. -/
def mapThrow {α β : Type} (f : α → Option β) : List α → Option (List β)
  | [] => some []
  | a :: rest =>
      match f a with
      | some b =>
          match mapThrow f rest with
          | some bs => some (b :: bs)
          | none => none
      | none => none

def isWsChar (c : Char) : Bool := c == ' ' || c == '\t' || c == '\n' || c == '\r'

def trimWs (cs : List Char) : List Char :=
  ((cs.dropWhile isWsChar).reverse.dropWhile isWsChar).reverse

def digitsVal (cs : List Char) : Nat := cs.foldl (fun a c => a * 10 + (c.toNat - 48)) 0

/-- Model of JavaScript `Number(string)`, restricted to optional-sign decimal
integers (after trimming whitespace; the empty string is `0`). Decimal
points, exponents, hex and `Infinity` are outside the model and map to `NaN`
(`none`), as every non-numeric string does. -/
def jsStrNumber (cs0 : List Char) : Option Int :=
  match trimWs cs0 with
  | [] => some 0
  | '-' :: ds => if ds ≠ [] ∧ ds.all Char.isDigit then some (-(digitsVal ds : Int)) else none
  | '+' :: ds => if ds ≠ [] ∧ ds.all Char.isDigit then some ((digitsVal ds : Int)) else none
  | ds => if ds ≠ [] ∧ ds.all Char.isDigit then some ((digitsVal ds : Int)) else none

/-- Model of JavaScript `Number(x)` on a possibly-`undefined` JSON value;
`none` is `NaN`. A non-empty array coerces through its string form and is
modelled as `NaN` (the module never stores arrays in numeric fields). -/
def jsNumber : Option JVal → Option Int
  | none => none
  | some .null => some 0
  | some (.bool b) => some (if b then 1 else 0)
  | some (.num n) => some n
  | some (.str s) => jsStrNumber s.data
  | some (.arr []) => some 0
  | some (.arr (_ :: _)) => none
  | some (.obj _) => none

/-- The summand `Number(i.quantity) || 0` of the inventory summary. -/
def quantityOf (i : JVal) : Int := (jsNumber (propOf i "quantity")).getD 0

def sumQuantities (l : List JVal) : Int := (l.map quantityOf).sum

/-- The filter `i.status === st`. -/
def statusIs (st : String) (i : JVal) : Bool := decide (propOf i "status" = some (.str st))

/-! ### Fetch operations -/

def fetchInventory (s : Store) : JVal := lsGet s kInventory (.arr [])

/-- Model of `fetchInventorySummary()`: the four aggregates, each a sum of
coerced quantities over a status filter. `none` models the `TypeError` the
source would throw when the inventory value is not an array or contains
`null` entries. -/
def fetchInventorySummary (s : Store) : Option JVal :=
  match lsGet s kInventory (.arr []) with
  | .arr items =>
      match mapThrow (fun i => jsGetProp i "quantity") items with
      | some _ =>
          some (.obj [
            ("total_items", .num (sumQuantities items)),
            ("available", .num (sumQuantities (items.filter (statusIs "in-stock")))),
            ("checked_out", .num (sumQuantities (items.filter (statusIs "checked-out")))),
            ("needs_repair", .num (sumQuantities (items.filter (statusIs "needs-repair"))))])
      | none => none
  | _ => none

def fetchCoaches (s : Store) : JVal := lsGet s kCoaches (.arr [])

def fetchTeams (s : Store) : JVal := lsGet s kTeams (.arr [])

def fetchStatuses (s : Store) : JVal := lsGet s kStatuses (.arr [])

/-- Truthiness of `v.length` (`cats && cats.length`): arrays and strings
have a numeric length, anything else gives `undefined`, which is falsy. -/
def jsLenTruthy (v : JVal) : Bool :=
  match v with
  | .arr l => decide (l.length ≠ 0)
  | .str s => decide (s.data.length ≠ 0)
  | _ => false

/-- Model of `Array.from(new Set(xs))`: distinct elements, first occurrence
first (a `Set` iterates in insertion order and ignores re-insertions). -/
def setFromAux : List JVal → List JVal → List JVal
  | [], _ => []
  | x :: xs, seen => if x ∈ seen then setFromAux xs seen else x :: setFromAux xs (x :: seen)

def setFrom (l : List JVal) : List JVal := setFromAux l []

/-- Model of `fetchCategories()`: the stored category list when it is truthy
and non-empty, otherwise the distinct truthy `category` values of the
current inventory items. `none` models the `TypeError` thrown when the
fallback path maps over a non-array inventory or a `null` item. -/
def fetchCategories (s : Store) : Option JVal :=
  let cats := lsGet s kCategories (.arr [])
  if truthy cats && jsLenTruthy cats then some cats
  else
    match lsGet s kInventory (.arr []) with
    | .arr items =>
        match mapThrow (fun i => jsGetProp i "category") items with
        | some props =>
            some (.arr (setFrom (props.filterMap (fun p =>
              match p with
              | some v => if truthy v then some v else none
              | none => none))))
        | none => none
    | _ => none

/-! ### Endpoint strings -/

/-- JavaScript `split('/')` on a character list. -/
def splitSlash : List Char → List (List Char)
  | [] => [[]]
  | c :: cs =>
      if c = '/' then [] :: splitSlash cs
      else
        match splitSlash cs with
        | [] => [[c]]
        | h :: t => (c :: h) :: t

/-- The `endpoint.split('/')[2]` segment (the event id of a usage path). -/
def segTwo (ep : String) : String := ⟨(splitSlash ep.data).getD 2 []⟩

/-- The `endpoint.startsWith('/events/') && endpoint.endsWith('/usage')` test. -/
def usageEp (ep : String) : Bool :=
  "/events/".data.isPrefixOf ep.data && "/usage".data.isSuffixOf ep.data

/-- The try-block of `fetchData`; `none` models a thrown error. -/
def fetchDataT (ep : String) (s : Store) : Option JVal :=
  if ep = "/schedule" ∨ ep = "/events" then some (lsGet s kSchedule (.arr []))
  else if ep = "/locations" then some (lsGet s kLocations (.arr []))
  else if ep = "/concessions" then some (lsGet s kConcessions (.arr []))
  else if usageEp ep then
    match jsGetProp (lsGet s kEventUsage (.obj [])) (segTwo ep) with
    | some (some v) => some (if truthy v then v else .arr [])
    | some none => some (.arr [])
    | none => none
  else some (.arr [])

/-- Model of `fetchData(endpoint)`: its catch-block turns any thrown error
into `[]`, so the operation is total. -/
def fetchData (ep : String) (s : Store) : JVal := (fetchDataT ep s).getD (.arr [])

def fetchEvents (s : Store) : JVal := fetchData "/events" s

def fetchConcessions (s : Store) : JVal := fetchData "/concessions" s

def fetchEventUsage (eventId : String) (s : Store) : JVal :=
  fetchData ("/events/" ++ eventId ++ "/usage") s

def fetchSchedule (s : Store) : JVal := fetchData "/schedule" s

def fetchLocations (s : Store) : JVal := fetchData "/locations" s

/-! ### The mutation dispatcher `postData` -/

/-- Object-literal spread `{ ...base, ...data }` restricted to the second
operand: objects merge field by field; strings and arrays spread their
indexed elements under decimal keys; other primitives spread to nothing. -/
def spreadInto (base : List (String × JVal)) (data : JVal) : List (String × JVal) :=
  match data with
  | .obj fs => fs.foldl (fun acc kv => objSet acc kv.1 kv.2) base
  | .str s => s.data.enum.foldl (fun acc p => objSet acc ⟨natChars p.1⟩ (.str ⟨[p.2]⟩)) base
  | .arr l => l.enum.foldl (fun acc p => objSet acc ⟨natChars p.1⟩ p.2) base
  | _ => base

/-- `Math.max` over already-coerced arguments (`none` = `NaN`); `NaN`
anywhere poisons the result, as in JavaScript. -/
def jsMaxList : List (Option Int) → Option Int
  | [] => none
  | x :: rest =>
      match rest with
      | [] => x
      | _ :: _ =>
          match x, jsMaxList rest with
          | some a, some b => some (max a b)
          | _, _ => none

/-- The per-record value `i.id || 0` as `Math.max` coerces it: a falsy id
contributes `0`, anything else its numeric coercion. -/
def idCoerce (p : Option JVal) : Option Int :=
  if truthyU p then jsNumber p else some 0

/-- Model of `postData(endpoint, data)`. `now` stands for the wall-clock
reading `new Date().toISOString()` of the call. `none` models an error
thrown out of the try-block (which `postData` re-throws to its caller).
A `NaN` next id (possible only when an existing id coerces to `NaN`) is
represented as `null`, its JSON-serialized form. -/
def postData (ep : String) (data : JVal) (now : String) (s : Store) : Option (JVal × Store) :=
  if ep = "/concessions" then
    match lsGet s kConcessions (.arr []) with
    | .arr [] =>
        let item : JVal := .obj (spreadInto [("id", .num 1)] data)
        some (item, lsSet kConcessions (.arr [item]) s)
    | .arr (i0 :: rest) =>
        match mapThrow (fun i => jsGetProp i "id") (i0 :: rest) with
        | some props =>
            let idv : JVal :=
              match jsMaxList (props.map idCoerce) with
              | some m => .num (m + 1)
              | none => .null
            let item : JVal := .obj (spreadInto [("id", idv)] data)
            some (item, lsSet kConcessions (.arr ((i0 :: rest) ++ [item])) s)
        | none => none
    | _ => none
  else if usageEp ep then
    match lsGet s kEventUsage (.obj []) with
    | .obj fs =>
        some (.obj [("status", .str "success")],
          lsSet kEventUsage (.obj (objSet fs (segTwo ep) data)) s)
    | .null => none
    | v => some (.obj [("status", .str "success")], lsSet kEventUsage v s)
  else if ep = "/schedule/request" then
    match lsGet s kEventRequests (.arr []) with
    | .arr reqs =>
        let r0 := spreadInto [("id", .num ((reqs.length : Int) + 1))] data
        let r1 : JVal := .obj (objSet r0 "created_at" (.str now))
        some (.obj [("status", .str "success"), ("message", .str "Event request stored locally.")],
          lsSet kEventRequests (.arr (reqs ++ [r1])) s)
    | _ => none
  else some (.obj [("status", .str "ok")], s)

def saveEventUsage (eventId : String) (d : JVal) (now : String) (s : Store) :
    Option (JVal × Store) :=
  postData ("/events/" ++ eventId ++ "/usage") d now s

def addConcessionItem (d : JVal) (now : String) (s : Store) : Option (JVal × Store) :=
  postData "/concessions" d now s

def requestNewEvent (d : JVal) (now : String) (s : Store) : Option (JVal × Store) :=
  postData "/schedule/request" d now s

/-- Model of `syncEventInventory(eventId)`: a constant acknowledgement. -/
def syncEventInventory (_eventId : String) (_s : Store) : JVal := .obj [("status", .str "ok")]

/-! ### Projections used by the concrete test stores -/

def postItem (r : Option (JVal × Store)) : Option JVal := r.map Prod.fst

def postStore (r : Option (JVal × Store)) (d : Store) : Store := (r.map Prod.snd).getD d

def emptyStore : Store := fun _ => none

example :
    postItem (postData "/concessions" (.obj [("name", .str "Soda")]) ""
        (lsSet kConcessions (.arr []) emptyStore))
      = some (.obj [("id", .num 1), ("name", .str "Soda")]) := by decide

example :
    fetchEventUsage "7"
        (postStore (saveEventUsage "7" (.arr [.num 5]) ""
          (lsSet kEventUsage (.obj []) emptyStore)) emptyStore)
      = .arr [.num 5] := by decide

example (s : Store) : fetchEvents s = fetchSchedule s := rfl

example :
    fetchCategories (lsSet kCategories (.arr [])
        (lsSet kInventory (.arr [
          .obj [("category", .str "bat")], .obj [("category", .str "ball")],
          .obj [("category", .str "bat")]]) emptyStore))
      = some (.arr [.str "bat", .str "ball"]) := by decide

/-! ### Supporting lemmas for the claim theorems -/

theorem mapThrow_total {α β : Type} (f : α → Option β) (g : α → β) :
    ∀ l : List α, (∀ a ∈ l, f a = some (g a)) → mapThrow f l = some (l.map g) := by
  intro l
  induction l with
  | nil => intro _; rfl
  | cons a rest ih =>
      intro h
      rw [mapThrow, h a (by simp), ih (fun x hx => h x (by simp [hx]))]
      rfl

theorem mapThrow_ne_none {α β : Type} (f : α → Option β) :
    ∀ l : List α, (∀ a ∈ l, f a ≠ none) → mapThrow f l ≠ none := by
  intro l
  induction l with
  | nil => intro _; simp [mapThrow]
  | cons a rest ih =>
      intro h
      rw [mapThrow]
      cases hfa : f a with
      | none => exact absurd hfa (h a (by simp))
      | some b =>
          cases hmt : mapThrow f rest with
          | none => exact absurd hmt (ih (fun x hx => h x (by simp [hx])))
          | some bs => simp

theorem setFromAux_sublist : ∀ (l seen : List JVal), (setFromAux l seen).Sublist l := by
  intro l
  induction l with
  | nil => intro seen; simp [setFromAux]
  | cons x xs ih =>
      intro seen
      rw [setFromAux]
      by_cases hx : x ∈ seen
      · simp only [if_pos hx]
        exact (ih seen).trans (List.sublist_cons_self x xs)
      · simp only [if_neg hx]
        exact (ih (x :: seen)).cons₂ x

theorem setFromAux_mem : ∀ (l seen : List JVal) (x : JVal),
    x ∈ setFromAux l seen ↔ (x ∈ l ∧ x ∉ seen) := by
  intro l
  induction l with
  | nil => intro seen x; simp [setFromAux]
  | cons y ys ih =>
      intro seen x
      rw [setFromAux]
      by_cases hy : y ∈ seen
      · simp only [if_pos hy, ih]
        constructor
        · exact fun ⟨h1, h2⟩ => ⟨by simp [h1], h2⟩
        · rintro ⟨h1, h2⟩
          rcases List.mem_cons.mp h1 with rfl | h1
          · exact absurd hy h2
          · exact ⟨h1, h2⟩
      · simp only [if_neg hy, List.mem_cons, ih]
        constructor
        · rintro (rfl | ⟨h1, h2⟩)
          · exact ⟨Or.inl rfl, hy⟩
          · exact ⟨Or.inr h1, fun hc => h2 (by simp [hc])⟩
        · rintro ⟨rfl | h1, h2⟩
          · exact Or.inl rfl
          · by_cases hxy : x = y
            · exact Or.inl hxy
            · exact Or.inr ⟨h1, by simp [h2, hxy]⟩

theorem setFromAux_nodup : ∀ (l seen : List JVal),
    (setFromAux l seen).Nodup := by
  intro l
  induction l with
  | nil => intro seen; simp [setFromAux]
  | cons y ys ih =>
      intro seen
      rw [setFromAux]
      by_cases hy : y ∈ seen
      · simp only [if_pos hy]
        exact ih seen
      · simp only [if_neg hy]
        refine List.Nodup.cons ?_ (ih (y :: seen))
        intro hc
        exact absurd (by simp) ((setFromAux_mem ys (y :: seen) y).mp hc).2

theorem setFrom_sublist (l : List JVal) : (setFrom l).Sublist l := setFromAux_sublist l []

theorem setFrom_mem (l : List JVal) (x : JVal) : x ∈ setFrom l ↔ x ∈ l := by
  rw [setFrom, setFromAux_mem]
  simp

theorem setFrom_nodup (l : List JVal) : (setFrom l).Nodup := setFromAux_nodup l []

theorem foldl_objSet_lookup_ne (k0 : String) :
    ∀ (fs : List (String × JVal)) (acc : List (String × JVal)),
      (∀ kv ∈ fs, kv.1 ≠ k0) →
      objLookup (fs.foldl (fun a kv => objSet a kv.1 kv.2) acc) k0 = objLookup acc k0 := by
  intro fs
  induction fs with
  | nil => intro acc _; rfl
  | cons kv rest ih =>
      intro acc h
      rw [List.foldl_cons, ih (objSet acc kv.1 kv.2) (fun x hx => h x (by simp [hx])),
        objLookup_objSet_ne acc kv.1 k0 kv.2 (fun e => h kv (by simp) e.symm)]

theorem mem_objSet (k : String) (v : JVal) :
    ∀ fs : List (String × JVal), ∀ kv ∈ objSet fs k v, kv ∈ fs ∨ kv.1 = k := by
  intro fs
  induction fs with
  | nil =>
      intro kv h
      rw [objSet, List.mem_singleton] at h
      subst h
      exact Or.inr rfl
  | cons w ws ih =>
      obtain ⟨kw, vw⟩ := w
      intro kv h
      rw [objSet] at h
      by_cases hkk : kw = k
      · rw [if_pos hkk] at h
        rcases List.mem_cons.mp h with rfl | hh
        · exact Or.inr hkk
        · exact Or.inl (by simp [hh])
      · rw [if_neg hkk] at h
        rcases List.mem_cons.mp h with rfl | hh
        · exact Or.inl (by simp)
        · rcases ih kv hh with h1 | h2
          · exact Or.inl (by simp [h1])
          · exact Or.inr h2

theorem nodupKeys_objSet (k : String) (v : JVal) :
    ∀ fs : List (String × JVal), nodupKeys fs = true → nodupKeys (objSet fs k v) = true := by
  intro fs
  induction fs with
  | nil => intro _; simp [objSet, nodupKeys]
  | cons kv rest ih =>
      obtain ⟨k', v'⟩ := kv
      intro h
      rw [nodupKeys, Bool.and_eq_true] at h
      by_cases he : k' = k
      · subst he
        simpa [objSet, nodupKeys, Bool.and_eq_true] using h
      · rw [objSet, if_neg he, nodupKeys, Bool.and_eq_true]
        refine ⟨?_, ih h.2⟩
        have h1 := h.1
        rw [Bool.not_eq_true', List.any_eq_false] at h1 ⊢
        intro kv2 hkv2
        rcases mem_objSet k v rest kv2 hkv2 with hh | hh
        · exact h1 kv2 hh
        · rw [hh]
          have hke : ¬ k = k' := fun e => he e.symm
          simp [hke]

theorem wfFields_objSet (k : String) (v : JVal) (hv : wfJ v = true) :
    ∀ fs : List (String × JVal), wfFields fs = true → wfFields (objSet fs k v) = true := by
  intro fs
  induction fs with
  | nil => intro _; simp [objSet, wfFields, hv]
  | cons kv rest ih =>
      obtain ⟨k', v'⟩ := kv
      intro h
      rw [wfFields, Bool.and_eq_true] at h
      by_cases he : k' = k
      · subst he
        simp [objSet, wfFields, hv, h.2]
      · rw [objSet, if_neg he, wfFields, Bool.and_eq_true]
        exact ⟨h.1, ih h.2⟩

theorem wfJ_objSet (k : String) (v : JVal) (u : List (String × JVal))
    (hu : wfJ (.obj u) = true) (hv : wfJ v = true) : wfJ (.obj (objSet u k v)) = true := by
  rw [wfJ, Bool.and_eq_true] at hu ⊢
  exact ⟨nodupKeys_objSet k v u hu.1, wfFields_objSet k v hv u hu.2⟩

/-- The numeric ids present in a concession list. -/
def idsOf (l : List JVal) : List Int :=
  l.filterMap (fun i =>
    match propOf i "id" with
    | some (.num n) => some n
    | _ => none)

theorem propOf_some_obj (i : JVal) (k : String) (v : JVal)
    (h : propOf i k = some v) : ∃ fs, i = .obj fs := by
  cases i <;> simp_all [propOf, jsGetProp]

theorem jsGetProp_of_ne_null (i : JVal) (k : String) (h : i ≠ .null) :
    jsGetProp i k = some (propOf i k) := by
  cases i <;> simp_all [propOf, jsGetProp]

theorem jsMaxList_map_some :
    ∀ ns : List Int, ns ≠ [] →
      ∃ m, jsMaxList (ns.map some) = some m ∧ m ∈ ns ∧ ∀ x ∈ ns, x ≤ m := by
  intro ns
  induction ns with
  | nil => intro h; exact absurd rfl h
  | cons a rest ih =>
      intro _
      cases rest with
      | nil => exact ⟨a, rfl, by simp, by simp⟩
      | cons b t =>
          obtain ⟨m, hm, hmem, hle⟩ := ih (by simp)
          refine ⟨max a m, ?_, ?_, ?_⟩
          · simp only [List.map_cons] at hm ⊢
            rw [show jsMaxList (some a :: some b :: List.map some t)
                = (match some a, jsMaxList (some b :: List.map some t) with
                   | some x, some y => some (max x y)
                   | _, _ => none) from rfl, hm]
          · rcases max_cases a m with ⟨he, -⟩ | ⟨he, -⟩
            · simp [he]
            · simp [he, List.mem_cons.mpr (Or.inr hmem)]
          · intro x hx
            rcases List.mem_cons.mp hx with rfl | hx
            · exact le_max_left _ _
            · exact le_trans (hle x hx) (le_max_right _ _)

theorem idsOf_all (l : List JVal)
    (hids : ∀ i ∈ l, ∃ n : Int, propOf i "id" = some (.num n) ∧ 1 ≤ n) :
    (mapThrow (fun i => jsGetProp i "id") l).isSome = true
    ∧ ∀ props, mapThrow (fun i => jsGetProp i "id") l = some props →
        props.map idCoerce = (idsOf l).map some := by
  induction l with
  | nil =>
      refine ⟨by simp [mapThrow], ?_⟩
      intro props h
      simp [mapThrow] at h
      simp [← h, idsOf]
  | cons i rest ih =>
      obtain ⟨n, hn, hn1⟩ := hids i (by simp)
      have hne : i ≠ .null := by
        rintro rfl
        simp [propOf, jsGetProp] at hn
      have hgp : jsGetProp i "id" = some (propOf i "id") := jsGetProp_of_ne_null i "id" hne
      obtain ⟨ihs, ihp⟩ := ih (fun x hx => hids x (by simp [hx]))
      constructor
      · rw [mapThrow, hgp]
        cases hmt : mapThrow (fun i => jsGetProp i "id") rest with
        | none => rw [hmt] at ihs; simp at ihs
        | some ps => simp
      · intro props h
        rw [mapThrow, hgp] at h
        cases hmt : mapThrow (fun i => jsGetProp i "id") rest with
        | none => rw [hmt] at h; simp at h
        | some ps =>
            rw [hmt] at h
            simp only [Option.some.injEq] at h
            subst h
            have hrec := ihp ps hmt
            have hic : idCoerce (propOf i "id") = some n := by
              rw [hn]
              have ht : truthyU (some (.num n)) = true := by
                simp [truthyU, truthy]
                omega
              simp [idCoerce, ht, jsNumber]
            have hido : idsOf (i :: rest) = n :: idsOf rest := by
              simp [idsOf, hn]
            rw [List.map_cons, hic, hido, List.map_cons, hrec]

theorem mem_idsOf (l : List JVal) (m : Int) :
    m ∈ idsOf l ↔ ∃ i ∈ l, propOf i "id" = some (.num m) := by
  simp only [idsOf, List.mem_filterMap]
  constructor
  · rintro ⟨i, hi, hm⟩
    refine ⟨i, hi, ?_⟩
    cases hp : propOf i "id" with
    | none => rw [hp] at hm; simp at hm
    | some v =>
        rw [hp] at hm
        cases v <;> simp_all
  · rintro ⟨i, hi, hm⟩
    exact ⟨i, hi, by rw [hm]⟩

theorem splitSlash_slash (cs : List Char) : splitSlash ('/' :: cs) = [] :: splitSlash cs := by
  simp [splitSlash]

theorem splitSlash_seg (seg : List Char) (rest : List Char) (h : ¬ '/' ∈ seg) :
    splitSlash (seg ++ '/' :: rest) = seg :: splitSlash rest := by
  induction seg with
  | nil => simp [splitSlash]
  | cons c cs ih =>
      have hc : ¬ c = '/' := by
        intro e
        exact h (by simp [e])
      rw [List.cons_append, splitSlash, if_neg hc, ih (by intro hin; exact h (by simp [hin]))]

theorem splitSlash_noslash (seg : List Char) (h : ¬ '/' ∈ seg) : splitSlash seg = [seg] := by
  induction seg with
  | nil => rfl
  | cons c cs ih =>
      have hc : ¬ c = '/' := by
        intro e
        exact h (by simp [e])
      rw [splitSlash, if_neg hc, ih (by intro hin; exact h (by simp [hin]))]

theorem usage_ep_data (eid : String) : ("/events/" ++ eid ++ "/usage").data
    = '/' :: (['e', 'v', 'e', 'n', 't', 's']
        ++ ('/' :: (eid.data ++ ('/' :: ['u', 's', 'a', 'g', 'e'])))) := by
  show ("/events/".data ++ eid.data) ++ "/usage".data = _
  simp

theorem segTwo_usage (eid : String) (h : ¬ '/' ∈ eid.data) :
    segTwo ("/events/" ++ eid ++ "/usage") = eid := by
  rw [segTwo, usage_ep_data, splitSlash_slash,
    splitSlash_seg ['e', 'v', 'e', 'n', 't', 's'] _ (by decide),
    splitSlash_seg eid.data _ h,
    splitSlash_noslash ['u', 's', 'a', 'g', 'e'] (by decide)]
  rfl

theorem isPrefixOf_append_self (l m : List Char) : l.isPrefixOf (l ++ m) = true := by
  induction l with
  | nil => simp [List.isPrefixOf]
  | cons c cs ih => simp [List.isPrefixOf, ih]

theorem isSuffixOf_append_self (l m : List Char) : l.isSuffixOf (m ++ l) = true := by
  rw [List.isSuffixOf, List.reverse_append]
  exact isPrefixOf_append_self l.reverse m.reverse

theorem usageEp_usage (eid : String) : usageEp ("/events/" ++ eid ++ "/usage") = true := by
  rw [usageEp, Bool.and_eq_true]
  constructor
  · have hshape : ("/events/" ++ eid ++ "/usage").data
        = "/events/".data ++ (eid.data ++ "/usage".data) := by
      show ("/events/".data ++ eid.data) ++ "/usage".data = _
      simp
    rw [hshape]
    exact isPrefixOf_append_self _ _
  · have hshape : ("/events/" ++ eid ++ "/usage").data
        = ("/events/".data ++ eid.data) ++ "/usage".data := rfl
    rw [hshape]
    exact isSuffixOf_append_self _ _

theorem usage_ep_len (eid : String) :
    ("/events/" ++ eid ++ "/usage").data.length = eid.data.length + 14 := by
  have hshape : ("/events/" ++ eid ++ "/usage").data
      = ("/events/".data ++ eid.data) ++ "/usage".data := rfl
  rw [hshape]
  simp

theorem str_ne_of_data_len {a b : String} (h : a.data.length ≠ b.data.length) : a ≠ b :=
  fun e => h (congrArg (fun s => s.data.length) e)

/-! ### Claim theorems -/

/-- C10: `fetchEvents` and `fetchSchedule` are the same operation: for every
store state they return the identical value, since both dispatch to the
single schedule collection. -/
theorem claim_C10_events_eq_schedule (s : Store) : fetchEvents s = fetchSchedule s := rfl

/-- C7: for every key and every JSON-representable value, writing with the
generic set operation and reading back with the generic get operation (same
key, any fallback) yields the original value; and whenever the stored raw
string fails to deserialize, the get operation returns the caller-supplied
fallback instead of throwing. -/
theorem claim_C7_roundtrip_and_fallback :
    (∀ (s : Store) (k : String) (v fb : JVal), wfJ v = true →
      lsGet (lsSet k v s) k fb = v)
  ∧ (∀ (s : Store) (k : String) (fb : JVal) (raw : String),
      s k = some raw → jsonParse raw = none → lsGet s k fb = fb) := by
  constructor
  · intro s k v fb h
    exact lsGet_lsSet_same s k v fb h
  · intro s k fb raw hraw hfail
    unfold lsGet
    rw [hraw]
    by_cases he : raw = ""
    · simp [he]
    · simp [he, hfail]

def c7Val : JVal := .obj [("id", .num 7), ("tags", .arr [.str "a b", .null, .bool true])]

/-- Witness for C7 at a concrete key, value and broken raw string. -/
theorem claim_C7_witness :
    (wfJ c7Val = true
      ∧ lsGet (lsSet "k" c7Val emptyStore) "k" (.arr []) = c7Val)
  ∧ (setItem "k" "oops" emptyStore "k" = some "oops"
      ∧ jsonParse "oops" = none
      ∧ lsGet (setItem "k" "oops" emptyStore) "k" (.arr []) = .arr []) :=
  ⟨⟨by decide, claim_C7_roundtrip_and_fallback.1 emptyStore "k" c7Val (.arr []) (by decide)⟩,
   ⟨by decide, by decide,
    claim_C7_roundtrip_and_fallback.2 (setItem "k" "oops" emptyStore) "k" (.arr []) "oops"
      (by decide) (by decide)⟩⟩

/-- C1 (amended): running the seed step a second time is always a no-op, and
a store in which every collection key currently reads back truthy is left
unchanged by the seed step. The claim's stronger form, that any store in
which every key merely holds a value is left unchanged, fails: a key can
hold a falsy JSON value (such as `0`), which the code re-seeds. -/
theorem claim_C1_seed_idempotent :
    (∀ s : Store, seedIfEmpty (seedIfEmpty s) = seedIfEmpty s)
  ∧ (∀ s : Store, (∀ p ∈ seedPairs, truthyU (lsGetU s p.1) = true) → seedIfEmpty s = s) :=
  ⟨seedIfEmpty_idem, seedIfEmpty_noop⟩

/-- A store in which every collection key holds the JSON text `0`: a value
is present for every key, yet the seed step overwrites them all. -/
def c1FalsyStore : Store := fun k => if k ∈ seedPairs.map Prod.fst then some "0" else none

/-- Counterexample to C1 as stated: every collection key of `c1FalsyStore`
holds a value, but `seedIfEmpty` does not leave the store unchanged (the
teams key is re-seeded). -/
theorem claim_C1_counterexample :
    (∀ p ∈ seedPairs, c1FalsyStore p.1 ≠ none) ∧ seedIfEmpty c1FalsyStore ≠ c1FalsyStore :=
  ⟨by decide, fun h =>
    absurd (congrFun h kTeams)
      (by decide : ¬ seedIfEmpty c1FalsyStore kTeams = c1FalsyStore kTeams)⟩

/-- A store in which every collection key holds the truthy JSON text `[1]`. -/
def c1TruthyStore : Store := fun k => if k ∈ seedPairs.map Prod.fst then some "[1]" else none

/-- Witness for C1 at a concrete store with truthy values everywhere. -/
theorem claim_C1_witness :
    (∀ p ∈ seedPairs, truthyU (lsGetU c1TruthyStore p.1) = true)
  ∧ seedIfEmpty c1TruthyStore = c1TruthyStore :=
  ⟨by decide, claim_C1_seed_idempotent.2 c1TruthyStore (by decide)⟩

/-- The inventory of C3's concrete scenario. -/
def c3Store : Store := lsSet kInventory (.arr [
  .obj [("quantity", .num 3), ("status", .str "in-stock")],
  .obj [("quantity", .num 2), ("status", .str "needs-repair")],
  .obj [("quantity", .str "x"), ("status", .str "in-stock")]]) emptyStore

/-- C3: the summary computes the four aggregates as sums of quantity
filtered by status; on the spec's inventory it yields total 5, available 3,
needs-repair 2, checked-out 0; and a missing or non-numeric quantity
contributes zero to every sum. -/
theorem claim_C3_inventory_summary :
    fetchInventorySummary c3Store = some (.obj [
      ("total_items", .num 5), ("available", .num 3),
      ("checked_out", .num 0), ("needs_repair", .num 2)])
  ∧ (∀ i : JVal, propOf i "quantity" = none → quantityOf i = 0)
  ∧ (∀ (i : JVal) (q : JVal), propOf i "quantity" = some q → jsNumber (some q) = none →
      quantityOf i = 0) := by
  refine ⟨by decide, ?_, ?_⟩
  · intro i h
    simp [quantityOf, h, jsNumber]
  · intro i q h hq
    simp [quantityOf, h, hq]

/-- Witness for C3's zero-contribution rules at concrete items. -/
theorem claim_C3_witness :
    (propOf (.obj [("status", .str "in-stock")]) "quantity" = none
      ∧ quantityOf (.obj [("status", .str "in-stock")]) = 0)
  ∧ (propOf (.obj [("quantity", .str "x")]) "quantity" = some (.str "x")
      ∧ jsNumber (some (.str "x")) = none
      ∧ quantityOf (.obj [("quantity", .str "x")]) = 0) :=
  ⟨⟨by decide, claim_C3_inventory_summary.2.1 (.obj [("status", .str "in-stock")]) (by decide)⟩,
   ⟨by decide, by decide,
    claim_C3_inventory_summary.2.2 (.obj [("quantity", .str "x")]) (.str "x")
      (by decide) (by decide)⟩⟩

/-- Modelled from the spec: the repository has no delete operation for
concessions (its UI only adds them), so the spec's "deleting id 1" step is
modelled as removing the records with that id from the persisted list. -/
def deleteConcession (n : Int) (s : Store) : Store :=
  match lsGet s kConcessions (.arr []) with
  | .arr l =>
      lsSet kConcessions (.arr (l.filter (fun i => !(decide (propOf i "id" = some (.num n)))))) s
  | _ => s

def c5s0 : Store := lsSet kConcessions (.arr []) emptyStore

def c5s1 : Store := postStore (postData "/concessions" (.obj [("name", .str "Soda")]) "" c5s0) c5s0

def c5s2 : Store := postStore (postData "/concessions" (.obj [("name", .str "Chips")]) "" c5s1) c5s1

def c5s3 : Store := deleteConcession 1 c5s2

/-- C5: starting from an empty concessions collection, posting yields id 1,
posting again yields id 2, and after deleting the record with id 1 a
further post yields id 3 (max+1 over the remaining records; the deleted id
is not reused). -/
theorem claim_C5_concession_id_trace :
    postItem (postData "/concessions" (.obj [("name", .str "Soda")]) "" c5s0)
      = some (.obj [("id", .num 1), ("name", .str "Soda")])
  ∧ postItem (postData "/concessions" (.obj [("name", .str "Chips")]) "" c5s1)
      = some (.obj [("id", .num 2), ("name", .str "Chips")])
  ∧ lsGet c5s3 kConcessions (.arr []) = .arr [.obj [("id", .num 2), ("name", .str "Chips")]]
  ∧ postItem (postData "/concessions" (.obj [("name", .str "Candy")]) "" c5s3)
      = some (.obj [("id", .num 3), ("name", .str "Candy")]) := by
  refine ⟨by decide, by decide, by decide, by decide⟩

/-- The category the fallback path keeps from one inventory item: its
`category` value when that value is truthy. -/
def catFilter (i : JVal) : Option JVal :=
  match propOf i "category" with
  | some v => if truthy v then some v else none
  | none => none

/-- C4: when the stored category collection is a non-empty list,
`fetchCategories` returns it unchanged regardless of inventory contents;
when it is the empty list, `fetchCategories` returns the distinct truthy
category values of the current inventory items in first-occurrence order
(without duplicates, as a subsequence of the occurrence list, containing
exactly the occurring values); on the spec's example inventory the result
is `["bat", "ball"]`. -/
theorem claim_C4_categories (s : Store) :
    (∀ cl : List JVal, lsGet s kCategories (.arr []) = .arr cl → cl ≠ [] →
      fetchCategories s = some (.arr cl))
  ∧ (∀ items : List JVal, lsGet s kCategories (.arr []) = .arr [] →
      lsGet s kInventory (.arr []) = .arr items → (∀ i ∈ items, i ≠ .null) →
      ∃ cats : List JVal, fetchCategories s = some (.arr cats)
        ∧ cats.Nodup
        ∧ cats.Sublist (items.filterMap catFilter)
        ∧ (∀ x : JVal, x ∈ cats ↔ x ∈ items.filterMap catFilter))
  ∧ fetchCategories (lsSet kCategories (.arr [])
        (lsSet kInventory (.arr [.obj [("category", .str "bat")],
          .obj [("category", .str "ball")], .obj [("category", .str "bat")]]) emptyStore))
      = some (.arr [.str "bat", .str "ball"]) := by
  refine ⟨?_, ?_, by decide⟩
  · intro cl hc hne
    have hcond : (truthy (.arr cl) && jsLenTruthy (.arr cl)) = true := by
      simp [truthy, jsLenTruthy, hne]
    simp only [fetchCategories, hc, hcond, if_true]
  · intro items hc hi hnull
    have hcond : (truthy (.arr ([] : List JVal)) && jsLenTruthy (.arr [])) = false := by
      simp [truthy, jsLenTruthy]
    have hmt : mapThrow (fun i => jsGetProp i "category") items
        = some (items.map (fun i => propOf i "category")) :=
      mapThrow_total _ _ items (fun a ha => jsGetProp_of_ne_null a "category" (hnull a ha))
    refine ⟨setFrom (items.filterMap catFilter), ?_, setFrom_nodup _, setFrom_sublist _,
      fun x => setFrom_mem _ x⟩
    simp only [fetchCategories, hc, hcond, Bool.false_eq_true, if_false, hi, hmt,
      List.filterMap_map]
    rfl

def c4Store : Store := lsSet kCategories (.arr [.str "hat"])
  (lsSet kInventory (.arr [.obj [("category", .str "bat")]]) emptyStore)

/-- Witness for C4: a non-empty seeded category list wins over a different
inventory-derived list. -/
theorem claim_C4_witness :
    (lsGet c4Store kCategories (.arr []) = .arr [.str "hat"]
      ∧ ([.str "hat"] : List JVal) ≠ [])
  ∧ fetchCategories c4Store = some (.arr [.str "hat"]) :=
  ⟨⟨by decide, by decide⟩,
   (claim_C4_categories c4Store).1 [.str "hat"] (by decide) (by decide)⟩

theorem propOf_spread_id (idv : JVal) (d : List (String × JVal))
    (hd : ∀ kv ∈ d, kv.1 ≠ "id") :
    propOf (.obj (spreadInto [("id", idv)] (.obj d))) "id" = some idv := by
  simp only [propOf, jsGetProp, spreadInto, Option.getD_some]
  rw [foldl_objSet_lookup_ne "id" d [("id", idv)] hd]
  simp [objLookup]

/-- C2 (amended): for every concessions list whose records carry integer
ids at least 1 and every posted object payload without an `id` field of its
own, the stored record's id is 1 on an empty list and otherwise exceeds
every existing id while being adjacent to the largest (max + 1); in
particular it never collides with an existing id. The claim's unrestricted
form fails: a payload carrying its own `id` field overrides the assigned
one (see the counterexample). -/
theorem claim_C2_concession_next_id (s : Store) (l : List JVal)
    (d : List (String × JVal)) (now : String)
    (hl : lsGet s kConcessions (.arr []) = .arr l)
    (hids : ∀ i ∈ l, ∃ n : Int, propOf i "id" = some (.num n) ∧ 1 ≤ n)
    (hd : ∀ kv ∈ d, kv.1 ≠ "id") :
    ∃ (item : JVal) (s' : Store) (nid : Int),
      postData "/concessions" (.obj d) now s = some (item, s')
      ∧ propOf item "id" = some (.num nid)
      ∧ (l = [] → nid = 1)
      ∧ (∀ i ∈ l, ∀ m : Int, propOf i "id" = some (.num m) → m < nid)
      ∧ (l ≠ [] → ∃ i ∈ l, propOf i "id" = some (.num (nid - 1)))
      ∧ (∀ i ∈ l, propOf i "id" ≠ some (.num nid)) := by
  cases l with
  | nil =>
      have hpost : postData "/concessions" (.obj d) now s
          = some (.obj (spreadInto [("id", .num 1)] (.obj d)),
              lsSet kConcessions (.arr [.obj (spreadInto [("id", .num 1)] (.obj d))]) s) := by
        simp only [postData, hl, if_true, eq_self_iff_true]
      exact ⟨_, _, 1, hpost, propOf_spread_id _ d hd, fun _ => rfl, by simp, by simp, by simp⟩
  | cons i0 rest =>
      obtain ⟨hsome, hprop⟩ := idsOf_all (i0 :: rest) hids
      obtain ⟨props, hprops⟩ : ∃ props,
          mapThrow (fun i => jsGetProp i "id") (i0 :: rest) = some props :=
        Option.isSome_iff_exists.mp hsome
      have hmapped := hprop props hprops
      have hidne : idsOf (i0 :: rest) ≠ [] := by
        obtain ⟨n, hn, -⟩ := hids i0 (by simp)
        intro h0
        have hmemn : n ∈ idsOf (i0 :: rest) := (mem_idsOf _ n).mpr ⟨i0, by simp, hn⟩
        rw [h0] at hmemn
        simp at hmemn
      obtain ⟨m, hm, hmem, hle⟩ := jsMaxList_map_some (idsOf (i0 :: rest)) hidne
      have hjm : jsMaxList (props.map idCoerce) = some m := by rw [hmapped]; exact hm
      have hpost : postData "/concessions" (.obj d) now s
          = some (.obj (spreadInto [("id", .num (m + 1))] (.obj d)),
              lsSet kConcessions
                (.arr ((i0 :: rest) ++ [.obj (spreadInto [("id", .num (m + 1))] (.obj d))]))
                s) := by
        simp only [postData, hl, hprops, hjm, if_true, eq_self_iff_true]
      refine ⟨_, _, m + 1, hpost, propOf_spread_id _ d hd, by simp, ?_, ?_, ?_⟩
      · intro i hi m' hm'
        have : m' ∈ idsOf (i0 :: rest) := (mem_idsOf _ m').mpr ⟨i, hi, hm'⟩
        have := hle m' this
        omega
      · intro _
        obtain ⟨i, hi, hid⟩ := (mem_idsOf _ m).mp hmem
        exact ⟨i, hi, by simpa using hid⟩
      · intro i hi hcoll
        have : m + 1 ∈ idsOf (i0 :: rest) := (mem_idsOf _ (m + 1)).mpr ⟨i, hi, hcoll⟩
        have := hle (m + 1) this
        omega

def c2cxStore : Store := lsSet kConcessions (.arr [.obj [("id", .num 1)]]) emptyStore

/-- Counterexample to C2 as stated: posting the payload `{id: 1}` onto a
list already containing id 1 stores a record whose id is 1 (the payload's
own field overrides the assigned max+1 = 2), colliding with the existing
record's id. -/
theorem claim_C2_counterexample :
    lsGet c2cxStore kConcessions (.arr []) = .arr [.obj [("id", .num 1)]]
  ∧ postItem (postData "/concessions" (.obj [("id", .num 1)]) "" c2cxStore)
      = some (.obj [("id", .num 1)])
  ∧ propOf (.obj [("id", .num 1)]) "id" = some (.num 1) := by
  refine ⟨by decide, by decide, by decide⟩

def c2wStore : Store := lsSet kConcessions (.arr [.obj [("id", .num 2)]]) emptyStore

/-- Witness for C2 at a one-record store and an id-free payload. -/
theorem claim_C2_witness :
    (lsGet c2wStore kConcessions (.arr []) = .arr [.obj [("id", .num 2)]]
      ∧ (∀ i ∈ [(.obj [("id", .num 2)] : JVal)],
          ∃ n : Int, propOf i "id" = some (.num n) ∧ 1 ≤ n)
      ∧ (∀ kv ∈ [(("name", JVal.str "Soda"))], kv.1 ≠ "id"))
  ∧ (∃ (item : JVal) (s' : Store) (nid : Int),
      postData "/concessions" (.obj [("name", .str "Soda")]) "" c2wStore = some (item, s')
      ∧ propOf item "id" = some (.num nid)
      ∧ ([(.obj [("id", .num 2)] : JVal)] = [] → nid = 1)
      ∧ (∀ i ∈ [(.obj [("id", .num 2)] : JVal)], ∀ m : Int,
          propOf i "id" = some (.num m) → m < nid)
      ∧ ([(.obj [("id", .num 2)] : JVal)] ≠ [] →
          ∃ i ∈ [(.obj [("id", .num 2)] : JVal)], propOf i "id" = some (.num (nid - 1)))
      ∧ (∀ i ∈ [(.obj [("id", .num 2)] : JVal)], propOf i "id" ≠ some (.num nid))) :=
  ⟨⟨by decide,
    by intro i hi; rw [List.mem_singleton] at hi; subst hi; exact ⟨2, by decide, by decide⟩,
    by decide⟩,
   claim_C2_concession_next_id c2wStore [.obj [("id", .num 2)]] [("name", .str "Soda")] ""
     (by decide)
     (by intro i hi; rw [List.mem_singleton] at hi; subst hi; exact ⟨2, by decide, by decide⟩)
     (by decide)⟩

/-- C9 (amended): for every current event-request list and every object
payload without an `id` field of its own, `postData('/schedule/request', data)`
appends exactly one record whose `id` is (length before insertion) + 1 and
whose `created_at` is the write-time clock reading, leaving the previously
stored requests unchanged, and returns the status acknowledgement
`\x7bstatus:'success', message:'Event request stored locally.'\x7d`, not the
persisted record. The claim's unrestricted form fails: a payload carrying
its own `id` field overrides the assigned length+1 id (see the
counterexample). -/
theorem claim_C9_event_request (s : Store) (l : List JVal)
    (d : List (String × JVal)) (now : String)
    (hl : lsGet s kEventRequests (.arr []) = .arr l)
    (hd : ∀ kv ∈ d, kv.1 ≠ "id") :
    ∃ r : JVal,
      postData "/schedule/request" (.obj d) now s
        = some (.obj [("status", .str "success"),
                      ("message", .str "Event request stored locally.")],
            lsSet kEventRequests (.arr (l ++ [r])) s)
      ∧ propOf r "id" = some (.num ((l.length : Int) + 1))
      ∧ propOf r "created_at" = some (.str now) := by
  refine ⟨.obj (objSet (spreadInto [("id", .num ((l.length : Int) + 1))] (.obj d))
      "created_at" (.str now)), ?_, ?_, ?_⟩
  · simp only [postData]
    rw [if_neg (by decide : ¬ ("/schedule/request" : String) = "/concessions"),
        if_neg (by decide : ¬ usageEp "/schedule/request" = true)]
    simp only [if_true]
    rw [hl]
  · simp only [propOf, jsGetProp, Option.getD_some]
    rw [objLookup_objSet_ne _ "created_at" "id" _ (by decide)]
    show objLookup (spreadInto [("id", .num ((l.length : Int) + 1))] (.obj d)) "id" = _
    simp only [spreadInto]
    rw [foldl_objSet_lookup_ne "id" d [("id", .num ((l.length : Int) + 1))] hd]
    simp [objLookup]
  · simp only [propOf, jsGetProp, Option.getD_some]
    rw [objLookup_objSet_self]

def c9cxStore : Store := lsSet kEventRequests (.arr []) emptyStore

/-- Counterexample to C9 as stated: posting the payload `\x7bid: 99\x7d` onto an
empty request list stores a record whose id is 99, not length+1 = 1 — the
payload's own field overrides the assigned id. -/
theorem claim_C9_counterexample :
    lsGet (postStore (postData "/schedule/request" (.obj [("id", .num 99)]) "T" c9cxStore)
        emptyStore) kEventRequests (.arr [])
      = .arr [.obj [("id", .num 99), ("created_at", .str "T")]]
  ∧ propOf (.obj [("id", .num 99), ("created_at", .str "T")]) "id" = some (.num 99) := by
  refine ⟨by decide, by decide⟩

def c9wStore : Store := lsSet kEventRequests (.arr [.obj [("id", .num 1)]]) emptyStore

/-- Witness for C9 at a one-request store and an id-free payload. -/
theorem claim_C9_witness :
    (lsGet c9wStore kEventRequests (.arr []) = .arr [.obj [("id", .num 1)]]
      ∧ ∀ kv ∈ [(("title", JVal.str "Fall Ball"))], kv.1 ≠ "id")
  ∧ (∃ r : JVal,
      postData "/schedule/request" (.obj [("title", .str "Fall Ball")])
          "2026-01-01T00:00:00.000Z" c9wStore
        = some (.obj [("status", .str "success"),
                      ("message", .str "Event request stored locally.")],
            lsSet kEventRequests (.arr ([.obj [("id", .num 1)]] ++ [r])) c9wStore)
      ∧ propOf r "id" = some (.num (([(.obj [("id", .num 1)] : JVal)].length : Int) + 1))
      ∧ propOf r "created_at" = some (.str "2026-01-01T00:00:00.000Z")) :=
  ⟨⟨by decide, by decide⟩,
   claim_C9_event_request c9wStore [.obj [("id", .num 1)]] [("title", .str "Fall Ball")]
     "2026-01-01T00:00:00.000Z" (by decide) (by decide)⟩

theorem postData_on_usage (eid : String) (heid : ¬ '/' ∈ eid.data) (p : JVal)
    (now : String) (s : Store) (u : List (String × JVal))
    (hu : lsGet s kEventUsage (.obj []) = .obj u) :
    postData ("/events/" ++ eid ++ "/usage") p now s
      = some (.obj [("status", .str "success")],
          lsSet kEventUsage (.obj (objSet u eid p)) s) := by
  have hne : ("/events/" ++ eid ++ "/usage" : String) ≠ "/concessions" := by
    apply str_ne_of_data_len
    rw [usage_ep_len, show ("/concessions" : String).data.length = 12 from rfl]
    omega
  simp only [postData]
  rw [if_neg hne, if_pos (usageEp_usage eid), hu, segTwo_usage eid heid]

theorem fetchData_on_usage (eid : String) (heid : ¬ '/' ∈ eid.data) (s : Store)
    (u : List (String × JVal)) (hu : lsGet s kEventUsage (.obj []) = .obj u) :
    fetchEventUsage eid s
      = (match objLookup u eid with
         | some v => if truthy v then v else .arr []
         | none => .arr []) := by
  have h1 : ("/events/" ++ eid ++ "/usage" : String) ≠ "/schedule" := by
    apply str_ne_of_data_len
    rw [usage_ep_len, show ("/schedule" : String).data.length = 9 from rfl]
    omega
  have h2 : ("/events/" ++ eid ++ "/usage" : String) ≠ "/events" := by
    apply str_ne_of_data_len
    rw [usage_ep_len, show ("/events" : String).data.length = 7 from rfl]
    omega
  have h3 : ("/events/" ++ eid ++ "/usage" : String) ≠ "/locations" := by
    apply str_ne_of_data_len
    rw [usage_ep_len, show ("/locations" : String).data.length = 10 from rfl]
    omega
  have h4 : ("/events/" ++ eid ++ "/usage" : String) ≠ "/concessions" := by
    apply str_ne_of_data_len
    rw [usage_ep_len, show ("/concessions" : String).data.length = 12 from rfl]
    omega
  simp only [fetchEventUsage, fetchData, fetchDataT]
  rw [if_neg (not_or.mpr ⟨h1, h2⟩), if_neg h3, if_neg h4,
    if_pos (usageEp_usage eid), hu, segTwo_usage eid heid]
  simp only [jsGetProp]
  cases objLookup u eid with
  | none => rfl
  | some v => rfl

/-- C6 (amended): event usage is an upsert keyed by event id. For every
slash-free event id, every well-formed usage object and payloads with the
second payload truthy, saving usage for that id twice and then fetching it
returns only the second payload, and usage fetched for any other slash-free
id is unaffected. The claim's unrestricted form fails: fetching after
saving a falsy second payload returns `[]` (the read is
`usage[eventId] || []`), not that payload — see the counterexample. -/
theorem claim_C6_usage_upsert (s : Store) (u : List (String × JVal))
    (eid : String) (p1 p2 : JVal) (t1 t2 : String)
    (heid : ¬ '/' ∈ eid.data)
    (hu : lsGet s kEventUsage (.obj []) = .obj u)
    (hwu : wfJ (.obj u) = true)
    (hw1 : wfJ p1 = true) (hw2 : wfJ p2 = true)
    (htr : truthy p2 = true) :
    ∃ s1 s2 : Store,
      saveEventUsage eid p1 t1 s = some (.obj [("status", .str "success")], s1)
      ∧ saveEventUsage eid p2 t2 s1 = some (.obj [("status", .str "success")], s2)
      ∧ fetchEventUsage eid s2 = p2
      ∧ ∀ eid' : String, ¬ '/' ∈ eid'.data → eid' ≠ eid →
          fetchEventUsage eid' s2 = fetchEventUsage eid' s := by
  have hw1' : wfJ (.obj (objSet u eid p1)) = true := wfJ_objSet eid p1 u hwu hw1
  have hw2' : wfJ (.obj (objSet (objSet u eid p1) eid p2)) = true :=
    wfJ_objSet eid p2 (objSet u eid p1) hw1' hw2
  have hu1 : lsGet (lsSet kEventUsage (.obj (objSet u eid p1)) s) kEventUsage (.obj [])
      = .obj (objSet u eid p1) :=
    lsGet_lsSet_same s kEventUsage _ (.obj []) hw1'
  refine ⟨lsSet kEventUsage (.obj (objSet u eid p1)) s,
    lsSet kEventUsage (.obj (objSet (objSet u eid p1) eid p2))
      (lsSet kEventUsage (.obj (objSet u eid p1)) s), ?_, ?_, ?_, ?_⟩
  · exact postData_on_usage eid heid p1 t1 s u hu
  · exact postData_on_usage eid heid p2 t2 _ _ hu1
  · have hu2 : lsGet (lsSet kEventUsage (.obj (objSet (objSet u eid p1) eid p2))
        (lsSet kEventUsage (.obj (objSet u eid p1)) s)) kEventUsage (.obj [])
        = .obj (objSet (objSet u eid p1) eid p2) :=
      lsGet_lsSet_same _ kEventUsage _ (.obj []) hw2'
    rw [fetchData_on_usage eid heid _ _ hu2, objLookup_objSet_self]
    exact if_pos htr
  · intro eid' h' hne
    have hu2 : lsGet (lsSet kEventUsage (.obj (objSet (objSet u eid p1) eid p2))
        (lsSet kEventUsage (.obj (objSet u eid p1)) s)) kEventUsage (.obj [])
        = .obj (objSet (objSet u eid p1) eid p2) :=
      lsGet_lsSet_same _ kEventUsage _ (.obj []) hw2'
    rw [fetchData_on_usage eid' h' _ _ hu2, fetchData_on_usage eid' h' s u hu,
      objLookup_objSet_ne (objSet u eid p1) eid eid' p2 hne,
      objLookup_objSet_ne u eid eid' p1 hne]

def c6s0 : Store := lsSet kEventUsage (.obj []) emptyStore

/-- Counterexample to C6 as stated: saving a falsy second payload (`false`)
for event `"7"` and fetching that event's usage returns `[]`, not the
second payload — the read falls back on any falsy stored value. -/
theorem claim_C6_counterexample :
    fetchEventUsage "7"
        (postStore (saveEventUsage "7" (.bool false) "t2"
          (postStore (saveEventUsage "7" (.num 1) "t1" c6s0) emptyStore)) emptyStore)
      = .arr []
  ∧ (JVal.bool false ≠ .arr []) := by
  refine ⟨by decide, by decide⟩

/-- Witness for C6 at event id `"7"` with payloads `1` then `2` over an
empty usage object. -/
theorem claim_C6_witness :
    (¬ '/' ∈ ("7" : String).data
      ∧ lsGet c6s0 kEventUsage (.obj []) = .obj []
      ∧ wfJ (.obj []) = true ∧ wfJ (.num 1) = true ∧ wfJ (.num 2) = true
      ∧ truthy (.num 2) = true)
  ∧ (∃ s1 s2 : Store,
      saveEventUsage "7" (.num 1) "t1" c6s0 = some (.obj [("status", .str "success")], s1)
      ∧ saveEventUsage "7" (.num 2) "t2" s1 = some (.obj [("status", .str "success")], s2)
      ∧ fetchEventUsage "7" s2 = .num 2
      ∧ ∀ eid' : String, ¬ '/' ∈ eid'.data → eid' ≠ "7" →
          fetchEventUsage eid' s2 = fetchEventUsage eid' c6s0) :=
  ⟨⟨by decide, by decide, by decide, by decide, by decide, by decide⟩,
   claim_C6_usage_upsert c6s0 [] "7" (.num 1) (.num 2) "t1" "t2" (by decide) (by decide)
     (by decide) (by decide) (by decide) (by decide)⟩

/-- The store shapes under which every `postData` branch runs without a
thrown error: the concessions key holds an array with no `null` element
(its id scan reads a property of each element), the event-usage key does
not hold `null` (it is indexed into), and the event-requests key holds an
array (it is pushed onto). -/
def mutStoreWF (s : Store) : Bool :=
  (match lsGet s kConcessions (.arr []) with
   | .arr l => l.all (fun i => match i with | .null => false | _ => true)
   | _ => false)
  && (match lsGet s kEventUsage (.obj []) with
      | .null => false
      | _ => true)
  && (match lsGet s kEventRequests (.arr []) with
      | .arr _ => true
      | _ => false)

/-- C8 (amended): for every endpoint that is none of the three recognized
mutation targets, `postData` returns the generic `\x7bstatus:'ok'\x7d`
acknowledgement with the store unmodified. The blanket "no operation
raises in any other case" is false: `postData` re-throws errors from its
try-block, e.g. when the concessions key holds JSON `null` (see the
counterexample); what does hold is that on every store whose mutated
collections are well-shaped (`mutStoreWF`) no endpoint makes `postData`
raise. -/
theorem claim_C8_dispatch (ep : String) (data : JVal) (now : String) (s : Store) :
    (¬ ep = "/concessions" → usageEp ep = false → ¬ ep = "/schedule/request" →
      postData ep data now s = some (.obj [("status", .str "ok")], s))
    ∧ (mutStoreWF s = true → postData ep data now s ≠ none) := by
  constructor
  · intro h1 h2 h3
    have h2' : ¬ usageEp ep = true := by simp [h2]
    simp only [postData]
    rw [if_neg h1, if_neg h2', if_neg h3]
  · intro hwf
    rw [mutStoreWF, Bool.and_eq_true, Bool.and_eq_true] at hwf
    obtain ⟨⟨hc, hu⟩, hr⟩ := hwf
    by_cases h1 : ep = "/concessions"
    · subst h1
      simp only [postData, eq_self_iff_true, if_true]
      cases hls : lsGet s kConcessions (.arr []) with
      | arr l =>
          rw [hls] at hc
          cases l with
          | nil => simp
          | cons i0 rest =>
              have hprops : ∀ a ∈ (i0 :: rest), jsGetProp a "id" ≠ none := by
                intro a ha
                have hpa := List.all_eq_true.mp hc a ha
                have hannull : a ≠ JVal.null := by
                  intro he
                  subst he
                  simp at hpa
                rw [jsGetProp_of_ne_null a "id" hannull]
                simp
              cases hmt : mapThrow (fun i => jsGetProp i "id") (i0 :: rest) with
              | none => exact absurd hmt (mapThrow_ne_none _ _ hprops)
              | some props => simp [hmt]
      | null => rw [hls] at hc; simp at hc
      | bool b => rw [hls] at hc; simp at hc
      | num n => rw [hls] at hc; simp at hc
      | str t => rw [hls] at hc; simp at hc
      | obj fs => rw [hls] at hc; simp at hc
    · by_cases h2 : usageEp ep = true
      · simp only [postData]
        rw [if_neg h1, if_pos h2]
        cases hls : lsGet s kEventUsage (.obj []) with
        | null => rw [hls] at hu; simp at hu
        | bool b => simp
        | num n => simp
        | str t => simp
        | arr l => simp
        | obj fs => simp
      · by_cases h3 : ep = "/schedule/request"
        · subst h3
          simp only [postData]
          rw [if_neg h1, if_neg h2]
          simp only [eq_self_iff_true, if_true]
          generalize lsGet s kEventRequests (.arr []) = v at hr ⊢
          cases v with
          | arr reqs => simp
          | null => simp at hr
          | bool b => simp at hr
          | num n => simp at hr
          | str t => simp at hr
          | obj fs => simp at hr
        · simp only [postData]
          rw [if_neg h1, if_neg h2, if_neg h3]
          simp

def c8cxStore : Store := lsSet kConcessions JVal.null emptyStore

/-- Counterexample to C8's blanket no-raise clause: on a store whose
concessions key holds JSON `null`, posting to `/concessions` throws (the
id scan reads a property of `null`) and `postData` re-throws the error. -/
theorem claim_C8_counterexample :
    postData "/concessions" (.obj []) "" c8cxStore = none
  ∧ mutStoreWF c8cxStore = false := by
  refine ⟨rfl, by decide⟩

def c8wStore : Store :=
  lsSet kEventRequests (.arr [])
    (lsSet kEventUsage (.obj []) (lsSet kConcessions (.arr []) emptyStore))

/-- Witness for C8: an unrecognized endpoint gets the generic ok
acknowledgement with the store unchanged, and on a well-shaped store a
recognized endpoint does not raise. -/
theorem claim_C8_witness :
    postData "/nope" (.num 0) "" c8wStore = some (.obj [("status", .str "ok")], c8wStore)
  ∧ mutStoreWF c8wStore = true
  ∧ postData "/concessions" (.obj []) "" c8wStore ≠ none :=
  ⟨(claim_C8_dispatch "/nope" (.num 0) "" c8wStore).1 (by decide) (by decide) (by decide),
   by decide,
   (claim_C8_dispatch "/concessions" (.obj []) "" c8wStore).2 (by decide)⟩
